import Mathlib

/-!
# Verification of `x/ibc-rate-limit/rate_limit.go`

A shallow embedding of the rate-limit hook of the IBC transfer stack and proofs
about it.

Conventions of the embedding:

* Go `string` values and the `[]byte` documents built from them are modelled by
  Lean `String`, that is, as well-formed Unicode text.
* Go `error` results are modelled with `Except GoError`; a `nil` error is `.ok`.
* `sdk.Int` is modelled by `Int`.
* The keepers reached through `sdk.Context` (wasm contract keeper, bank keeper)
  are collaborators outside the file under study.  They are modelled by records
  of functions over an abstract store `σ`; every keeper call is appended to the
  `calls` log carried by the context, so that "the engine is not invoked" is a
  statement about that log.
* Library functions whose result is not inspected by the code (bech32 parsing,
  escrow-address derivation, the SHA-256 trace hash) are fields of `Chain`.
* `json.Unmarshal` of packet data is an argument of `GetFundsFromPacket`.
-/

namespace IbcRateLimit

/-! ## Strings -/

/-- Model of Go `strings.HasPrefix(s, prefix)`. -/
def HasPrefix (s pfx : String) : Bool :=
  pfx.data.isPrefixOf s.data

/-! ## Errors -/

/-- Modelled from the spec: the registered error values of the package `types` of this module
(`types.ErrRateLimitExceeded`, `types.ErrBadMessage`, `types.ErrContractError`), whose
declaration file is not part of the sources; they are identified by name. -/
inductive ErrKind
  | ErrRateLimitExceeded
  | ErrBadMessage
  | ErrContractError
  deriving DecidableEq, Repr

/-- Go `error` values seen by the module: an error built by library code (observed only
through its `Error()` text), a registered error of the module, or the result of
`sdkerrors.Wrap(parent, description)`. -/
inductive GoError
  | lib (text : String)
  | registered (kind : ErrKind)
  | wrapped (parent : GoError) (description : String)
  deriving DecidableEq, Repr

deriving instance DecidableEq for Except

/-- Modelled from the spec: the description text of a registered error; the spec fixes only
the names of the three kinds, which stand for the texts here. -/
def ErrKind.description : ErrKind → String
  | .ErrRateLimitExceeded => "rate limit exceeded"
  | .ErrBadMessage => "bad message"
  | .ErrContractError => "contract error"

/-- Model of the `Error()` method: a wrapped error prints its description, a colon and the
text of its parent. -/
def GoError.Error : GoError → String
  | .lib text => text
  | .registered kind => kind.description
  | .wrapped parent description => description ++ ": " ++ parent.Error

/-- Model of `errors.Is(e, kind)`: the chain of wrapped errors below `e` ends in the
registered error `kind`. -/
def GoError.isKind : GoError → ErrKind → Bool
  | .lib _, _ => false
  | .registered k, kind => decide (k = kind)
  | .wrapped parent _, kind => parent.isKind kind

/-- Model of `sdkerrors.Wrap(err, description)` for a non-nil `err`. -/
def Wrap (err : GoError) (description : String) : GoError :=
  .wrapped err description

/-! ## JSON encoding (`encoding/json`) -/

/-- The lower-case hexadecimal digit of a value below sixteen. -/
def hexDigit (n : Nat) : Char :=
  if n < 10 then Char.ofNat (48 + n) else Char.ofNat (87 + n)

/-- Model of the per-character step of the string encoder of `encoding/json` with HTML
escaping on, as `json.Marshal` runs it: quote and backslash get a backslash, newline,
carriage return and tab their short escapes, other control characters and `<`, `>`, `&`
the six-character `\u00XX` form, the line and paragraph separators (U+2028, U+2029) their
`\u2028` and `\u2029` forms, and
every other character is copied. -/
def escapeChar (c : Char) : List Char :=
  if c = '"' then ['\\', '"']
  else if c = '\\' then ['\\', '\\']
  else if c = '\n' then ['\\', 'n']
  else if c = '\r' then ['\\', 'r']
  else if c = '\t' then ['\\', 't']
  else if c.toNat < 32 ∨ c = '<' ∨ c = '>' ∨ c = '&' then
    ['\\', 'u', '0', '0', hexDigit (c.toNat / 16), hexDigit (c.toNat % 16)]
  else if c.toNat = 8232 then ['\\', 'u', '2', '0', '2', '8']
  else if c.toNat = 8233 then ['\\', 'u', '2', '0', '2', '9']
  else [c]

/-- The escaped body of a JSON string, without the surrounding quotes. -/
def escapeBody : List Char → List Char
  | [] => []
  | c :: cs => escapeChar c ++ escapeBody cs

/-- Model of `json.Marshal` on a Go `string`: the escaped text between double quotes. -/
def encodeString (s : String) : List Char :=
  '"' :: (escapeBody s.data ++ ['"'])

/-- Decimal digits of a natural number, most significant first; `fuel` bounds the number of
digits. -/
def decimalDigits : Nat → Nat → List Char
  | 0, _ => []
  | fuel + 1, n =>
    if n < 10 then [Char.ofNat (48 + n)]
    else decimalDigits fuel (n / 10) ++ [Char.ofNat (48 + n % 10)]

/-- Model of `big.Int.MarshalText` as `sdk.Int` uses it: the decimal text of the value, with
a leading minus sign when it is negative. -/
def formatInt : Int → String
  | .ofNat n => String.mk (decimalDigits (n + 1) n)
  | .negSucc n => String.mk ('-' :: decimalDigits (n + 2) (n + 1))

/-- Model of `sdk.Int.MarshalJSON`: the decimal text of the value, encoded as a JSON
string. -/
def encodeInt (i : Int) : List Char :=
  encodeString (formatInt i)

/-- Model of the struct encoder of `encoding/json`: the fields in declaration order, each as
its quoted JSON name, a colon and the encoded value, separated by commas. -/
def encodeFields : List (String × List Char) → List Char
  | [] => []
  | [(name, value)] => encodeString name ++ ':' :: value
  | (name, value) :: rest => encodeString name ++ ':' :: value ++ ',' :: encodeFields rest

/-- Model of the struct encoder of `encoding/json`: the encoded fields between braces. -/
def encodeStruct (fields : List (String × List Char)) : List Char :=
  '{' :: (encodeFields fields ++ ['}'])

/-! ## A reference JSON reader

The reader below is not part of the program: it is the yardstick against which the encoded
requests are read back, so that a statement about "the JSON object the engine receives" is a
statement about the bytes. It accepts strings, integers and objects, with insignificant
white space between tokens. -/

/-- JSON documents, as far as the requests of this module need them. -/
inductive JSON
  | str (s : String)
  | num (n : Int)
  | obj (fields : List (String × JSON))

/-- Reader state inside a JSON string: plain text, just after a backslash, or inside a
`\u` escape with `remaining` hexadecimal digits to read and `acc` read so far. -/
inductive StrState
  | normal
  | escape
  | hex (remaining : Nat) (acc : Nat)

/-- Value of a hexadecimal digit. -/
def hexVal (c : Char) : Option Nat :=
  if 48 ≤ c.toNat ∧ c.toNat ≤ 57 then some (c.toNat - 48)
  else if 97 ≤ c.toNat ∧ c.toNat ≤ 102 then some (c.toNat - 87)
  else if 65 ≤ c.toNat ∧ c.toNat ≤ 70 then some (c.toNat - 55)
  else none

/-- The character a one-letter escape stands for. -/
def unescape (c : Char) : Option Char :=
  if c = '"' then some '"'
  else if c = '\\' then some '\\'
  else if c = '/' then some '/'
  else if c = 'n' then some '\n'
  else if c = 'r' then some '\r'
  else if c = 't' then some '\t'
  else if c = 'b' then some (Char.ofNat 8)
  else if c = 'f' then some (Char.ofNat 12)
  else none

/-- Puts a decoded character in front of the rest of a decoded string. -/
def pushChar (c : Char) : Option (List Char × List Char) → Option (List Char × List Char)
  | some (s, rest) => some (c :: s, rest)
  | none => none

/-- Reads the body of a JSON string up to its closing quote; returns the decoded text and
the input after the quote. Raw control characters and lone surrogates are refused. -/
def readString : StrState → List Char → Option (List Char × List Char)
  | _, [] => none
  | .normal, c :: cs =>
    if c = '"' then some ([], cs)
    else if c = '\\' then readString .escape cs
    else if c.toNat < 32 then none
    else pushChar c (readString .normal cs)
  | .escape, c :: cs =>
    match unescape c with
    | some d => pushChar d (readString .normal cs)
    | none => if c = 'u' then readString (.hex 4 0) cs else none
  | .hex 0 _, _ :: _ => none
  | .hex (k + 1) acc, c :: cs =>
    match hexVal c with
    | none => none
    | some v =>
      if k = 0 then
        if 55296 ≤ 16 * acc + v ∧ 16 * acc + v < 57344 then none
        else pushChar (Char.ofNat (16 * acc + v)) (readString .normal cs)
      else readString (.hex k (16 * acc + v)) cs

/-- Drops leading JSON white space. -/
def skipWs : List Char → List Char
  | [] => []
  | c :: cs => if c = ' ' ∨ c = '\n' ∨ c = '\r' ∨ c = '\t' then skipWs cs else c :: cs

/-- Reads a run of decimal digits onto `acc`. -/
def readDigits : Nat → List Char → Nat × List Char
  | acc, [] => (acc, [])
  | acc, c :: cs =>
    if 48 ≤ c.toNat ∧ c.toNat ≤ 57 then readDigits (10 * acc + (c.toNat - 48)) cs
    else (acc, c :: cs)

/-- Reads an integer literal: an optional minus sign and at least one digit. -/
def readInt : List Char → Option (Int × List Char)
  | [] => none
  | c :: cs =>
    if c = '-' then
      match cs with
      | [] => none
      | d :: _ =>
        if 48 ≤ d.toNat ∧ d.toNat ≤ 57 then
          some (-((readDigits 0 cs).1 : Int), (readDigits 0 cs).2)
        else none
    else if 48 ≤ c.toNat ∧ c.toNat ≤ 57 then
      some (((readDigits 0 (c :: cs)).1 : Int), (readDigits 0 (c :: cs)).2)
    else none

mutual
/-- Reads one JSON value; `fuel` bounds the nesting and the number of members. -/
def parseValue : Nat → List Char → Option (JSON × List Char)
  | 0, _ => none
  | fuel + 1, cs =>
    match skipWs cs with
    | [] => none
    | c :: r =>
      if c = '"' then
        match readString .normal r with
        | some (s, r1) => some (.str (String.mk s), r1)
        | none => none
      else if c = '{' then
        match skipWs r with
        | [] => none
        | d :: r1 =>
          if d = '}' then some (.obj [], r1)
          else
            match parseMembers fuel (d :: r1) with
            | some (fs, r2) => some (.obj fs, r2)
            | none => none
      else
        match readInt (c :: r) with
        | some (n, r1) => some (.num n, r1)
        | none => none
/-- Reads the members of a non-empty object up to and including its closing brace. -/
def parseMembers : Nat → List Char → Option (List (String × JSON) × List Char)
  | 0, _ => none
  | fuel + 1, cs =>
    match skipWs cs with
    | [] => none
    | c :: r =>
      if c = '"' then
        match readString .normal r with
        | none => none
        | some (k, r1) =>
          match skipWs r1 with
          | [] => none
          | c1 :: r2 =>
            if c1 = ':' then
              match parseValue fuel r2 with
              | none => none
              | some (v, r3) =>
                match skipWs r3 with
                | [] => none
                | c2 :: r4 =>
                  if c2 = ',' then
                    match parseMembers fuel r4 with
                    | some (fs, r5) => some ((String.mk k, v) :: fs, r5)
                    | none => none
                  else if c2 = '}' then some ([(String.mk k, v)], r4)
                  else none
            else none
      else none
end

/-- Reads a whole JSON document: one value, followed by white space only. -/
def parseJSON (doc : String) : Option JSON :=
  match parseValue (doc.data.length + 1) doc.data with
  | some (v, rest) => if skipWs rest = [] then some v else none
  | none => none

/-- Reads a decimal integer text back: the inverse of `formatInt`. -/
def parseInt (s : String) : Option Int :=
  match readInt s.data with
  | some (i, []) => some i
  | _ => none

/-- The encoded form of a field whose value is a string. -/
def strField (kv : String × String) : String × List Char :=
  (kv.1, encodeString kv.2)

/-- The JSON member a string-valued field is read back as. -/
def strMember (kv : String × String) : String × JSON :=
  (kv.1, JSON.str kv.2)

/-! ## Collaborators -/

/-- Model of `sdk.AccAddress`: the raw bytes of an account address. -/
abbrev AccAddress := List Nat

/-- Model of `sdk.Coin`. -/
structure Coin where
  Denom : String
  Amount : Int

/-- A call made to a keeper during the execution of a function of the module. -/
inductive KeeperCall
  | Sudo (contractAddr : AccAddress) (msg : String)
  | GetSupplyWithOffset (denom : String)
  | GetBalance (addr : AccAddress) (denom : String)
  deriving DecidableEq, Repr

/-- Model of `sdk.Context`: the chain store the keepers work on, and the log of the keeper
calls made so far. -/
structure Context (σ : Type) where
  store : σ
  calls : List KeeperCall

/-- Library functions of the chain whose results the module passes on without inspecting
them: `sdk.AccAddressFromBech32`, `transfertypes.GetEscrowAddress`, and the hexadecimal
SHA-256 hash that `DenomTrace.Hash` computes. -/
structure Chain where
  AccAddressFromBech32 : String → Except GoError AccAddress
  GetEscrowAddress : String → String → AccAddress
  Hash : String → String

/-- Model of `wasmkeeper.PermissionedKeeper`: `run` is the privileged entry point of the
contract, which returns the response data or an error and may change the store. -/
structure PermissionedKeeper (σ : Type) where
  run : σ → AccAddress → String → Except GoError String × σ

/-- Model of `contractKeeper.Sudo(ctx, contractAddr, msg)`: runs the entry point on the store
and records the call. -/
def PermissionedKeeper.Sudo {σ : Type} (k : PermissionedKeeper σ) (ctx : Context σ)
    (contractAddr : AccAddress) (msg : String) : Except GoError String × Context σ :=
  ((k.run ctx.store contractAddr msg).1,
    { store := (k.run ctx.store contractAddr msg).2,
      calls := ctx.calls ++ [KeeperCall.Sudo contractAddr msg] })

/-- Model of `bankkeeper.Keeper`, as far as the module reads it. -/
structure BankKeeper (σ : Type) where
  supplyWithOffset : σ → String → Coin
  balance : σ → AccAddress → String → Coin

/-- Model of `bankKeeper.GetSupplyWithOffset(ctx, denom)`: reads the store and records the
call. -/
def BankKeeper.GetSupplyWithOffset {σ : Type} (bk : BankKeeper σ) (ctx : Context σ)
    (denom : String) : Coin × Context σ :=
  (bk.supplyWithOffset ctx.store denom,
    { ctx with calls := ctx.calls ++ [KeeperCall.GetSupplyWithOffset denom] })

/-- Model of `bankKeeper.GetBalance(ctx, addr, denom)`: reads the store and records the
call. -/
def BankKeeper.GetBalance {σ : Type} (bk : BankKeeper σ) (ctx : Context σ)
    (addr : AccAddress) (denom : String) : Coin × Context σ :=
  (bk.balance ctx.store addr denom,
    { ctx with calls := ctx.calls ++ [KeeperCall.GetBalance addr denom] })

/-! ## The module -/

def msgSend : String := "send_packet"

def msgRecv : String := "recv_packet"

/-- Go struct `UndoSendMsgContent`. -/
structure UndoSendMsgContent where
  ChannelId : String
  Denom : String
  Funds : String

/-- Go struct `UndoSendMsg`. -/
structure UndoSendMsg where
  UndoSend : UndoSendMsgContent

/-- Go struct `RateLimitExecMsg`. -/
structure RateLimitExecMsg where
  ChannelId : String
  Denom : String
  ChannelValue : Int
  Funds : String

/-- Go struct `SendPacketMsg`. -/
structure SendPacketMsg where
  SendPacket : RateLimitExecMsg

/-- Go struct `RecvPacketMsg`. -/
structure RecvPacketMsg where
  RecvPacket : RateLimitExecMsg

/-- Encoding of `UndoSendMsgContent` under its `json` field tags. -/
def UndoSendMsgContent.encode (m : UndoSendMsgContent) : List Char :=
  encodeStruct [("channel_id", encodeString m.ChannelId), ("denom", encodeString m.Denom),
    ("funds", encodeString m.Funds)]

/-- Encoding of `RateLimitExecMsg` under its `json` field tags. -/
def RateLimitExecMsg.encode (m : RateLimitExecMsg) : List Char :=
  encodeStruct [("channel_id", encodeString m.ChannelId), ("denom", encodeString m.Denom),
    ("channel_value", encodeInt m.ChannelValue), ("funds", encodeString m.Funds)]

/-- Model of `json.Marshal` on an `UndoSendMsg`: the document and a nil error; the encoder
has no failing case for a struct of strings. -/
def UndoSendMsg.Marshal (m : UndoSendMsg) : String × Option GoError :=
  (String.mk (encodeStruct [("undo_send", m.UndoSend.encode)]), none)

/-- Model of `json.Marshal` on a `SendPacketMsg`: the document and a nil error. -/
def SendPacketMsg.Marshal (m : SendPacketMsg) : String × Option GoError :=
  (String.mk (encodeStruct [("send_packet", m.SendPacket.encode)]), none)

/-- Model of `json.Marshal` on a `RecvPacketMsg`: the document and a nil error. -/
def RecvPacketMsg.Marshal (m : RecvPacketMsg) : String × Option GoError :=
  (String.mk (encodeStruct [("recv_packet", m.RecvPacket.encode)]), none)

/-- Go function `BuildWasmExecMsg`; returns the bytes and the error, `none` for nil. -/
def BuildWasmExecMsg (msgType sourceChannel denom : String) (channelValue : Int)
    (amount : String) : String × Option GoError :=
  let content : RateLimitExecMsg :=
    { ChannelId := sourceChannel, Denom := denom, ChannelValue := channelValue,
      Funds := amount }
  if msgType = msgSend then
    match SendPacketMsg.Marshal { SendPacket := content } with
    | (_, some err) => ("", some err)
    | (asJson, none) => (asJson, none)
  else if msgType = msgRecv then
    match RecvPacketMsg.Marshal { RecvPacket := content } with
    | (_, some err) => ("", some err)
    | (asJson, none) => (asJson, none)
  else ("", some (.registered .ErrBadMessage))

/-- Go function `CheckAndUpdateRateLimits`; returns the error result and the context after
the call. -/
def CheckAndUpdateRateLimits {σ : Type} (chain : Chain) (ctx : Context σ)
    (contractKeeper : PermissionedKeeper σ) (msgType contract : String) (channelValue : Int)
    (sourceChannel denom amount : String) : Except GoError Unit × Context σ :=
  match chain.AccAddressFromBech32 contract with
  | .error err => (.error err, ctx)
  | .ok contractAddr =>
    match BuildWasmExecMsg msgType sourceChannel denom channelValue amount with
    | (_, some err) => (.error err, ctx)
    | (sendPacketMsg, none) =>
      match contractKeeper.Sudo ctx contractAddr sendPacketMsg with
      | (.error err, ctx1) => (.error (Wrap (.registered .ErrRateLimitExceeded) err.Error), ctx1)
      | (.ok _, ctx1) => (.ok (), ctx1)

/-- Go function `UndoSendRateLimit`; returns the error result and the context after the
call. -/
def UndoSendRateLimit {σ : Type} (chain : Chain) (ctx : Context σ)
    (contractKeeper : PermissionedKeeper σ) (contract sourceChannel denom amount : String) :
    Except GoError Unit × Context σ :=
  match chain.AccAddressFromBech32 contract with
  | .error err => (.error err, ctx)
  | .ok contractAddr =>
    let msg : UndoSendMsg :=
      { UndoSend := { ChannelId := sourceChannel, Denom := denom, Funds := amount } }
    match msg.Marshal with
    | (_, some err) => (.error err, ctx)
    | (asJson, none) =>
      match contractKeeper.Sudo ctx contractAddr asJson with
      | (.error err, ctx1) => (.error (Wrap (.registered .ErrContractError) err.Error), ctx1)
      | (.ok _, ctx1) => (.ok (), ctx1)

/-! ### Denominations -/

/-- Model of Go `strings.Split(s, "/")` on the characters of `s`: the pieces between the
slashes, one more than there are slashes. -/
def splitSlash : List Char → List (List Char)
  | [] => [[]]
  | c :: cs =>
    if c = '/' then [] :: splitSlash cs
    else
      match splitSlash cs with
      | [] => [[c]]
      | piece :: pieces => (c :: piece) :: pieces

/-- Model of Go `strings.Join(elems, "/")`. -/
def joinSlash : List (List Char) → List Char
  | [] => []
  | [piece] => piece
  | piece :: pieces => piece ++ '/' :: joinSlash pieces

/-- Model of `transfertypes.DenomTrace`. -/
structure DenomTrace where
  Path : String
  BaseDenom : String

/-- Model of `channeltypes.IsValidChannelID` of the IBC library (ibc-go v3.3.0): the
identifier is `channel-` followed by one to twenty decimal digits whose value fits in 64
bits. -/
def IsValidChannelID (channelID : List Char) : Bool :=
  "channel-".data.isPrefixOf channelID &&
    decide (1 ≤ (channelID.drop 8).length) && decide ((channelID.drop 8).length ≤ 20) &&
    (channelID.drop 8).all (fun c => decide (48 ≤ c.toNat ∧ c.toNat ≤ 57)) &&
    decide ((readDigits 0 (channelID.drop 8)).1 < 2 ^ 64)

/-- Model of `extractPathAndBaseFromFullDenom` of the IBC library (ibc-go v3.3.0), on the
items left from index `i` on, `length` being the number of all items: while two items are
left, there are more than two items in all and the second of the two is a channel identifier,
the two join the path; what is left then is the base denomination. -/
def extractPathAndBaseFromFullDenom (length : Nat) :
    List (List Char) → List (List Char) × List (List Char)
  | port :: channel :: rest =>
    if 2 < length ∧ IsValidChannelID channel = true then
      (port :: channel :: (extractPathAndBaseFromFullDenom length rest).1,
        (extractPathAndBaseFromFullDenom length rest).2)
    else ([], port :: channel :: rest)
  | items => ([], items)

/-- Model of the trace parser `transfertypes.ParseDenomTrace` of the IBC library
(ibc-go v3.3.0), which is outside the sources. A denomination without a slash is a base
denomination with an empty path; otherwise the leading pairs of a port and a channel
identifier, joined by slashes, are the path, and the remaining items, joined by slashes, are
the base denomination. -/
def ParseDenomTrace (rawDenom : String) : DenomTrace :=
  let denomSplit := splitSlash rawDenom.data
  if denomSplit.headD [] = rawDenom.data then
    { Path := "", BaseDenom := rawDenom }
  else
    { Path := String.mk
        (joinSlash (extractPathAndBaseFromFullDenom denomSplit.length denomSplit).1),
      BaseDenom := String.mk
        (joinSlash (extractPathAndBaseFromFullDenom denomSplit.length denomSplit).2) }

/-- Model of `DenomTrace.GetFullDenomPath` of the IBC library (ibc-go v3.3.0), which is outside
the sources: the path, a slash and the base denomination, or the base denomination alone
when the path is empty. -/
def DenomTrace.GetFullDenomPath (dt : DenomTrace) : String :=
  if dt.Path = "" then dt.BaseDenom else dt.Path ++ "/" ++ dt.BaseDenom

/-- Model of `DenomTrace.IBCDenom` of the IBC library (ibc-go v3.3.0), which is outside the
sources: `ibc/` followed by the hash of the full trace; a trace with an empty path is its
base denomination. -/
def DenomTrace.IBCDenom (chain : Chain) (dt : DenomTrace) : String :=
  if dt.Path ≠ "" then "ibc" ++ "/" ++ chain.Hash dt.GetFullDenomPath else dt.BaseDenom

/-- Go function `GetLocalDenom`. -/
def GetLocalDenom (chain : Chain) (denom : String) : String :=
  if HasPrefix denom "transfer/" then
    let denomTrace := ParseDenomTrace denom
    denomTrace.IBCDenom chain
  else denom

/-! ### Channel value -/

/-- Go function `CalculateChannelValue`; returns the value and the context after the keeper
calls. -/
def CalculateChannelValue {σ : Type} (chain : Chain) (ctx : Context σ)
    (denom port channel : String) (bankKeeper : BankKeeper σ) : Int × Context σ :=
  if HasPrefix denom "ibc/" then
    ((bankKeeper.GetSupplyWithOffset ctx denom).1.Amount,
      (bankKeeper.GetSupplyWithOffset ctx denom).2)
  else if channel = "any" then
    let escrowAddress := chain.GetEscrowAddress port channel
    ((bankKeeper.GetBalance ctx escrowAddress denom).1.Amount,
      (bankKeeper.GetBalance ctx escrowAddress denom).2)
  else
    let escrowAddress := chain.GetEscrowAddress port channel
    ((bankKeeper.GetBalance ctx escrowAddress denom).1.Amount,
      (bankKeeper.GetBalance ctx escrowAddress denom).2)

/-- The single-channel rule in the words of the spec, for comparison with
`CalculateChannelValue`: the channel value of a native asset is the current balance held by
the escrow account associated with the port and the channel, read with one balance
lookup. -/
def singleChannelEscrowValue {σ : Type} (chain : Chain) (ctx : Context σ)
    (denom port channel : String) (bankKeeper : BankKeeper σ) : Int × Context σ :=
  ((bankKeeper.balance ctx.store (chain.GetEscrowAddress port channel) denom).Amount,
    { ctx with calls := ctx.calls ++
        [KeeperCall.GetBalance (chain.GetEscrowAddress port channel) denom] })

/-- Number of policy-engine invocations in a log of keeper calls. -/
def countSudo : List KeeperCall → Nat
  | [] => 0
  | .Sudo _ _ :: rest => countSudo rest + 1
  | .GetSupplyWithOffset _ :: rest => countSudo rest
  | .GetBalance _ _ :: rest => countSudo rest

/-! ### Packets -/

/-- Model of `transfertypes.FungibleTokenPacketData`. -/
structure FungibleTokenPacketData where
  Denom : String
  Amount : String
  Sender : String
  Receiver : String
  deriving DecidableEq, Repr

/-- Model of `exported.PacketI`, as far as the module reads it: the packet data. -/
structure PacketI where
  GetData : String

/-- Go function `GetFundsFromPacket`; `Unmarshal` stands for `json.Unmarshal` into a
`FungibleTokenPacketData`, a library function whose decoding rules the module does not
inspect. Returns the amount, the local denomination and the error, `none` for nil. -/
def GetFundsFromPacket (chain : Chain)
    (Unmarshal : String → Except GoError FungibleTokenPacketData) (packet : PacketI) :
    String × String × Option GoError :=
  match Unmarshal packet.GetData with
  | .error err => ("", "", some err)
  | .ok packetData => (packetData.Amount, GetLocalDenom chain packetData.Denom, none)

/-! ## Sample collaborators

Concrete collaborators on which the theorems are instantiated. -/

/-- A chain whose address parser refuses blank input, as the first check of the library
parser does, and accepts everything else. -/
def sampleChain : Chain where
  AccAddressFromBech32 := fun address =>
    if address.data.all (fun c => c = ' ') then
      .error (.lib "empty address string is not allowed")
    else .ok (address.data.map Char.toNat)
  GetEscrowAddress := fun port channel => (port.data ++ '/' :: channel.data).map Char.toNat
  Hash := fun text => text

/-- A policy engine that accepts every request and counts it in the store. -/
def acceptingEngine : PermissionedKeeper Nat where
  run := fun store _ _ => (.ok "", store + 1)

/-- A policy engine that refuses every request. -/
def refusingEngine : PermissionedKeeper Nat where
  run := fun store _ _ => (.error (.lib "quota exceeded"), store)

/-- A bank whose supply of every denomination is 700 and where every account holds 50000. -/
def sampleBank : BankKeeper Nat where
  supplyWithOffset := fun _ denom => { Denom := denom, Amount := 700 }
  balance := fun _ _ denom => { Denom := denom, Amount := 50000 }

/-- The string held under `key` among the members of a JSON object, or the empty string. -/
def lookupString (key : String) : List (String × JSON) → String
  | [] => ""
  | (k, .str v) :: rest => if k = key then v else lookupString key rest
  | (_, .num _) :: rest => lookupString key rest
  | (_, .obj _) :: rest => lookupString key rest

/-- A packet-data decoder built on the reference reader: a JSON object is decoded field by
field, an absent field being left empty, and anything else is refused. -/
def sampleUnmarshal (data : String) : Except GoError FungibleTokenPacketData :=
  match parseJSON data with
  | some (.obj fields) =>
    .ok { Denom := lookupString "denom" fields, Amount := lookupString "amount" fields,
          Sender := lookupString "sender" fields, Receiver := lookupString "receiver" fields }
  | _ => .error (.lib "cannot unmarshal packet data")

/-- The context before any keeper call. -/
def freshContext : Context Nat :=
  { store := 0, calls := [] }

/-! ## Lemmas on the JSON encoding and its reader -/

theorem hexVal_hexDigit : ∀ d, d < 16 → hexVal (hexDigit d) = some d := by
  decide

theorem readString_escapeChar (c : Char) (tail : List Char) :
    readString .normal (escapeChar c ++ tail) = pushChar c (readString .normal tail) := by
  unfold escapeChar
  split_ifs with h1 h2 h3 h4 h5 h6 h7 h8
  · subst h1; simp [readString, unescape]
  · subst h2; simp [readString, unescape]
  · subst h3; simp [readString, unescape]
  · subst h4; simp [readString, unescape]
  · subst h5; simp [readString, unescape]
  · have hc : c.toNat < 64 := by
      rcases h6 with h | h | h | h
      · omega
      · subst h; decide
      · subst h; decide
      · subst h; decide
    have h0 : hexVal '0' = some 0 := by decide
    have hu : unescape 'u' = none := by decide
    have e1 := hexVal_hexDigit (c.toNat / 16) (by omega)
    have e2 := hexVal_hexDigit (c.toNat % 16) (by omega)
    have e3 : 16 * (c.toNat / 16) + c.toNat % 16 = c.toNat := Nat.div_add_mod _ _
    have e4 : ¬ (55296 ≤ c.toNat ∧ c.toNat < 57344) := by omega
    simp only [List.cons_append, List.nil_append, readString, hu, h0, e1, e2]
    simp [e3, e4]
  · have hc : c = Char.ofNat 8232 := by rw [← h7, Char.ofNat_toNat]
    subst hc
    simp [readString, unescape, hexVal]
  · have hc : c = Char.ofNat 8233 := by rw [← h8, Char.ofNat_toNat]
    subst hc
    simp [readString, unescape, hexVal]
  · have h6 : ¬ c.toNat < 32 := fun h => h6 (Or.inl h)
    simp [readString, h1, h2, h6]

theorem readString_escapeBody (s rest : List Char) :
    readString .normal (escapeBody s ++ '"' :: rest) = some (s, rest) := by
  induction s with
  | nil => simp [escapeBody, readString]
  | cons c cs ih =>
    simp only [escapeBody, List.append_assoc, readString_escapeChar, ih, pushChar]

theorem parseValue_encodeString (f : Nat) (s : String) (rest : List Char) :
    parseValue (f + 1) (encodeString s ++ rest) = some (.str s, rest) := by
  simp [parseValue, encodeString, skipWs, readString_escapeBody]

theorem parseMembers_comma (g : Nat) (k : String) (W X : List Char) (v : JSON)
    (hv : parseValue g W = some (v, ',' :: X)) :
    parseMembers (g + 1) (encodeString k ++ ':' :: W)
      = (match parseMembers g X with
        | some (fs, r5) => some ((k, v) :: fs, r5)
        | none => none) := by
  simp [parseMembers, encodeString, skipWs, readString_escapeBody, hv]

theorem parseMembers_last (g : Nat) (k : String) (W X : List Char) (v : JSON)
    (hv : parseValue g W = some (v, '}' :: X)) :
    parseMembers (g + 1) (encodeString k ++ ':' :: W) = some ([(k, v)], X) := by
  simp [parseMembers, encodeString, skipWs, readString_escapeBody, hv]

theorem parseValue_object (g : Nat) (k : String) (W X : List Char)
    (fs : List (String × JSON)) (hm : parseMembers g (encodeString k ++ W) = some (fs, X)) :
    parseValue (g + 1) ('{' :: (encodeString k ++ W)) = some (.obj fs, X) := by
  have hm2 : parseMembers g ('"' :: (escapeBody k.data ++ '"' :: W)) = some (fs, X) := by
    simpa [encodeString] using hm
  simp [parseValue, encodeString, skipWs, hm2]

theorem parseMembers_strFields (fields : List (String × String)) (hne : fields ≠ []) :
    ∀ (f : Nat) (rest : List Char),
      parseMembers (f + fields.length + 1) (encodeFields (fields.map strField) ++ '}' :: rest)
        = some (fields.map strMember, rest) := by
  induction fields with
  | nil => exact absurd rfl hne
  | cons kv tl ih =>
    intro f rest
    cases tl with
    | nil =>
      have hv := parseValue_encodeString f kv.2 ('}' :: rest)
      simpa [encodeFields, strField, strMember] using
        parseMembers_last (f + 1) kv.1 _ rest _ hv
    | cons kv2 tl2 =>
      have ih2 := ih (by simp) f rest
      have hv := parseValue_encodeString (f + (kv2 :: tl2).length)  kv.2
        (',' :: (encodeFields ((kv2 :: tl2).map strField) ++ '}' :: rest))
      have h := parseMembers_comma _ kv.1 _ _ _ hv
      rw [ih2] at h
      simpa [encodeFields, strField, strMember] using h

theorem parseValue_strStruct (fields : List (String × String)) (hne : fields ≠ [])
    (f : Nat) (rest : List Char) :
    parseValue (f + fields.length + 2) (encodeStruct (fields.map strField) ++ rest)
      = some (.obj (fields.map strMember), rest) := by
  have h := parseMembers_strFields fields hne f rest
  obtain ⟨kv, tl, rfl⟩ := List.exists_cons_of_ne_nil hne
  cases tl with
  | nil =>
    simp only [List.map_cons, List.map_nil, encodeFields, strField, List.append_assoc,
      List.cons_append] at h
    simpa [encodeStruct, encodeFields, strField] using parseValue_object _ _ _ _ _ h
  | cons kv2 tl2 =>
    simp only [List.map_cons, encodeFields, strField, List.append_assoc,
      List.cons_append] at h
    simpa [encodeStruct, encodeFields, strField] using parseValue_object _ _ _ _ _ h

theorem parseValue_tagged (tag : String) (fields : List (String × String))
    (hne : fields ≠ []) (f : Nat) (rest : List Char) :
    parseValue (f + fields.length + 4)
        (encodeStruct [(tag, encodeStruct (fields.map strField))] ++ rest)
      = some (.obj [(tag, .obj (fields.map strMember))], rest) := by
  have hv := parseValue_strStruct fields hne f ('}' :: rest)
  have hm := parseMembers_last _ tag _ _ _ hv
  have h := parseValue_object _ tag _ _ _ hm
  simpa [encodeStruct, encodeFields] using h

theorem length_encodeFields (fields : List (String × String)) :
    fields.length ≤ (encodeFields (fields.map strField)).length := by
  induction fields with
  | nil => simp
  | cons kv tl ih =>
    cases tl with
    | nil => simp [encodeFields, strField]; omega
    | cons kv2 tl2 =>
      simp only [List.map_cons, encodeFields, List.length_append, List.length_cons] at ih ⊢
      omega

theorem parseJSON_tagged (tag : String) (fields : List (String × String))
    (hne : fields ≠ []) :
    parseJSON (String.mk (encodeStruct [(tag, encodeStruct (fields.map strField))]))
      = some (.obj [(tag, .obj (fields.map strMember))]) := by
  have hlen : fields.length + 3 ≤
      (encodeStruct [(tag, encodeStruct (fields.map strField))]).length := by
    have := length_encodeFields fields
    simp only [encodeStruct, encodeFields, encodeString, List.length_append, List.length_cons,
      List.length_nil]
    omega
  obtain ⟨f, hf⟩ : ∃ f, (encodeStruct [(tag, encodeStruct (fields.map strField))]).length + 1
      = f + fields.length + 4 :=
    ⟨(encodeStruct [(tag, encodeStruct (fields.map strField))]).length - (fields.length + 3),
      by omega⟩
  have h := parseValue_tagged tag fields hne f []
  rw [List.append_nil] at h
  simp only [parseJSON, hf, h, skipWs, if_true]


theorem toNat_digit : ∀ d, d < 10 → (Char.ofNat (48 + d)).toNat = 48 + d := by
  decide

theorem readDigits_decimalDigits (fuel : Nat) :
    ∀ (n : Nat) (rest : List Char), n < 10 ^ fuel →
      readDigits 0 (decimalDigits fuel n ++ rest) = readDigits n rest := by
  induction fuel with
  | zero =>
    intro n rest h
    have : n = 0 := by simpa using h
    simp [decimalDigits, this]
  | succ fuel ih =>
    intro n rest h
    unfold decimalDigits
    split_ifs with h10
    · have e := toNat_digit n h10
      simp only [List.cons_append, List.nil_append, readDigits, e]
      have : 48 ≤ 48 + n ∧ 48 + n ≤ 57 := by omega
      simp [this]
    · have hq : n / 10 < 10 ^ fuel := by
        rw [Nat.div_lt_iff_lt_mul (by norm_num)]
        rw [pow_succ] at h
        exact h
      have e := toNat_digit (n % 10) (Nat.mod_lt _ (by norm_num))
      rw [List.append_assoc, ih (n / 10) _ hq]
      simp only [List.cons_append, List.nil_append, readDigits, e]
      have : 48 ≤ 48 + n % 10 ∧ 48 + n % 10 ≤ 57 := by omega
      have e2 : 10 * (n / 10) + n % 10 = n := by omega
      simp [this, e2]

theorem decimalDigits_head (fuel n : Nat) :
    ∃ c cs, decimalDigits (fuel + 1) n = c :: cs ∧ 48 ≤ c.toNat ∧ c.toNat ≤ 57 := by
  induction fuel generalizing n with
  | zero =>
    unfold decimalDigits
    split_ifs with h10
    · exact ⟨_, [], rfl, by rw [toNat_digit n h10]; omega⟩
    · have e := toNat_digit (n % 10) (Nat.mod_lt _ (by norm_num))
      exact ⟨Char.ofNat (48 + n % 10), [], by simp [decimalDigits], by rw [e]; omega⟩
  | succ fuel ih =>
    unfold decimalDigits
    split_ifs with h10
    · exact ⟨_, [], rfl, by rw [toNat_digit n h10]; omega⟩
    · obtain ⟨c, cs, hc, hd⟩ := ih (n / 10)
      exact ⟨c, cs ++ [Char.ofNat (48 + n % 10)], by rw [hc]; rfl, hd⟩

theorem lt_ten_pow_succ (n : Nat) : n < 10 ^ (n + 1) :=
  lt_trans (Nat.lt_succ_self n) (Nat.lt_pow_self (by norm_num) (n + 1))

theorem readInt_decimalDigits (n : Nat) :
    readInt (decimalDigits (n + 1) n) = some ((n : Int), []) := by
  obtain ⟨c, cs, hc, hd⟩ := decimalDigits_head n n
  have hr := readDigits_decimalDigits (n + 1) n [] (lt_ten_pow_succ n)
  rw [List.append_nil, hc] at hr
  have hm : c ≠ '-' := by
    intro h; subst h; revert hd; decide
  rw [hc]
  simp only [readInt, hm, if_false, hd, and_self, if_true, hr]
  simp [readDigits]

theorem parseInt_formatInt (i : Int) : parseInt (formatInt i) = some i := by
  cases i with
  | ofNat n => simp [parseInt, formatInt, readInt_decimalDigits]
  | negSucc n =>
    obtain ⟨c, cs, hc, hd⟩ := decimalDigits_head (n + 1) (n + 1)
    have hr := readDigits_decimalDigits (n + 2) (n + 1) [] (lt_ten_pow_succ (n + 1))
    rw [List.append_nil, hc] at hr
    simp only [parseInt, formatInt, readInt, hc, if_true, hd, and_self, hr]
    simp [readDigits, Int.negSucc_eq]

theorem splitSlash_ne_nil (l : List Char) : splitSlash l ≠ [] := by
  cases l with
  | nil => simp [splitSlash]
  | cons c cs =>
    unfold splitSlash
    split_ifs
    · simp
    · split <;> simp

theorem splitSlash_cons_of_ne (c : Char) (cs : List Char) (hc : c ≠ '/') :
    ∃ piece pieces, splitSlash cs = piece :: pieces ∧
      splitSlash (c :: cs) = (c :: piece) :: pieces := by
  obtain ⟨piece, pieces, h⟩ := List.exists_cons_of_ne_nil (splitSlash_ne_nil cs)
  exact ⟨piece, pieces, h, by simp [splitSlash, hc, h]⟩

theorem joinSlash_cons_cons (c : Char) (piece : List Char) (pieces : List (List Char)) :
    joinSlash ((c :: piece) :: pieces) = c :: joinSlash (piece :: pieces) := by
  cases pieces <;> simp [joinSlash]

theorem joinSlash_splitSlash (l : List Char) : joinSlash (splitSlash l) = l := by
  induction l with
  | nil => simp [splitSlash, joinSlash]
  | cons c cs ih =>
    by_cases hc : c = '/'
    · obtain ⟨piece, pieces, h⟩ := List.exists_cons_of_ne_nil (splitSlash_ne_nil cs)
      rw [h] at ih
      simp [splitSlash, hc, h, joinSlash, ih]
    · obtain ⟨piece, pieces, h, h2⟩ := splitSlash_cons_of_ne c cs hc
      rw [h2, joinSlash_cons_cons, ← h, ih]

theorem slash_not_mem_splitSlash (l : List Char) :
    ∀ piece ∈ splitSlash l, '/' ∉ piece := by
  induction l with
  | nil => simp [splitSlash]
  | cons c cs ih =>
    by_cases hc : c = '/'
    · intro piece hp
      simp only [splitSlash, hc, if_true, List.mem_cons] at hp
      rcases hp with rfl | hp
      · simp
      · exact ih piece hp
    · obtain ⟨piece, pieces, h, h2⟩ := splitSlash_cons_of_ne c cs hc
      rw [h2]
      rw [h] at ih
      intro q hq
      rcases List.mem_cons.mp hq with rfl | hq
      · have := ih piece (List.mem_cons_self _ _)
        simp only [List.mem_cons, not_or]
        exact ⟨fun e => hc e.symm, this⟩
      · exact ih q (List.mem_cons_of_mem _ hq)

theorem joinSlash_dropLast (first : List Char) (pieces : List (List Char))
    (hne : pieces ≠ []) :
    joinSlash (first :: pieces).dropLast ++ '/' :: (first :: pieces).getLastD []
      = joinSlash (first :: pieces) := by
  induction pieces generalizing first with
  | nil => exact absurd rfl hne
  | cons p ps ih =>
    cases ps with
    | nil => simp [joinSlash]
    | cons p2 ps2 =>
      have h := ih p (by simp)
      simp only [List.dropLast_cons₂, List.getLastD_cons] at h ⊢
      simp only [joinSlash, List.append_assoc, List.cons_append]
      rw [h]
      simp [joinSlash]

theorem data_of_hasPrefix (s pfx : String) (h : HasPrefix s pfx = true) :
    ∃ t, s.data = pfx.data ++ t := by
  unfold HasPrefix at h
  obtain ⟨t, ht⟩ := List.isPrefixOf_iff_prefix.mp h
  exact ⟨t, ht.symm⟩

theorem splitSlash_transfer (t : List Char) :
    splitSlash ("transfer/".data ++ t) = "transfer".data :: splitSlash t := by
  obtain ⟨piece, pieces, h⟩ := List.exists_cons_of_ne_nil (splitSlash_ne_nil t)
  simp [splitSlash, h]

/-! ## Lemmas on denomination traces -/

theorem hasPrefix_ibc_append (text : String) :
    HasPrefix ("ibc/" ++ text) "ibc/" = true ∧
    HasPrefix ("ibc/" ++ text) "transfer/" = false := by
  constructor
  · simp [HasPrefix, String.data_append]
  · simp [HasPrefix, String.data_append, List.isPrefixOf]

theorem extractPathAndBase_append (length : Nat) :
    ∀ items, (extractPathAndBaseFromFullDenom length items).1
      ++ (extractPathAndBaseFromFullDenom length items).2 = items
  | [] => rfl
  | [_] => rfl
  | port :: channel :: rest => by
    have ih := extractPathAndBase_append length rest
    unfold extractPathAndBaseFromFullDenom
    split_ifs
    · simp [ih]
    · simp

theorem joinSlash_append (front back : List (List Char)) (hf : front ≠ []) (hb : back ≠ []) :
    joinSlash (front ++ back) = joinSlash front ++ '/' :: joinSlash back := by
  induction front with
  | nil => exact absurd rfl hf
  | cons piece pieces ih =>
    cases pieces with
    | nil =>
      obtain ⟨q, qs, rfl⟩ := List.exists_cons_of_ne_nil hb
      simp [joinSlash]
    | cons p2 ps2 =>
      have h := ih (by simp)
      simp only [List.cons_append] at h ⊢
      simp only [joinSlash, h, List.append_assoc, List.cons_append]

theorem slash_not_mem_of_validChannel (channelID : List Char)
    (h : IsValidChannelID channelID = true) : '/' ∉ channelID := by
  simp only [IsValidChannelID, Bool.and_eq_true, decide_eq_true_eq, List.all_eq_true] at h
  obtain ⟨⟨⟨⟨hpre, _⟩, _⟩, hdigits⟩, _⟩ := h
  obtain ⟨t, ht⟩ := List.isPrefixOf_iff_prefix.mp hpre
  intro hmem
  rw [← ht] at hmem hdigits
  rcases List.mem_append.mp hmem with h1 | h1
  · revert h1; decide
  · have hd := hdigits '/' (by simpa using h1)
    revert hd; decide

theorem splitSlash_append_slash (piece rest : List Char) (h : '/' ∉ piece) :
    splitSlash (piece ++ '/' :: rest) = piece :: splitSlash rest := by
  induction piece with
  | nil => simp [splitSlash]
  | cons c cs ih =>
    have hc : c ≠ '/' := fun e => h (by simp [e])
    have hcs : '/' ∉ cs := fun e => h (List.mem_cons_of_mem _ e)
    simp [splitSlash, hc, ih hcs]

theorem ParseDenomTrace_transfer_cases (d : String) (h : HasPrefix d "transfer/" = true) :
    ((ParseDenomTrace d).Path ≠ "" ∧
      (∃ channelID rest, d.data = "transfer/".data ++ channelID ++ '/' :: rest ∧
        IsValidChannelID channelID = true) ∧
      ((ParseDenomTrace d).Path ++ "/" ++ (ParseDenomTrace d).BaseDenom = d ∨
        (ParseDenomTrace d).Path ++ "/" ++ (ParseDenomTrace d).BaseDenom = d ++ "/")) ∨
    ((ParseDenomTrace d).Path = "" ∧ (ParseDenomTrace d).BaseDenom = d ∧
      ¬ ∃ channelID rest, d.data = "transfer/".data ++ channelID ++ '/' :: rest ∧
        IsValidChannelID channelID = true) := by
  obtain ⟨t, ht⟩ := data_of_hasPrefix d _ h
  obtain ⟨b, tl, hs⟩ := List.exists_cons_of_ne_nil (splitSlash_ne_nil t)
  have hsplit := splitSlash_transfer t
  have hjoin := joinSlash_splitSlash d.data
  have hjoint := joinSlash_splitSlash t
  rw [ht, hsplit] at hjoin
  rw [hs] at hsplit hjoin hjoint
  have hhead : ¬ ("transfer".data = "transfer/".data ++ t) := by
    intro e
    have := congrArg List.length e
    simp at this
  have happ := extractPathAndBase_append ("transfer".data :: b :: tl).length
    ("transfer".data :: b :: tl)
  by_cases hcond : 2 < ("transfer".data :: b :: tl).length ∧ IsValidChannelID b = true
  · left
    have htl : tl ≠ [] := by
      intro e; rw [e] at hcond; simp at hcond
    have hex : extractPathAndBaseFromFullDenom ("transfer".data :: b :: tl).length
        ("transfer".data :: b :: tl)
        = ("transfer".data :: b ::
            (extractPathAndBaseFromFullDenom ("transfer".data :: b :: tl).length tl).1,
          (extractPathAndBaseFromFullDenom ("transfer".data :: b :: tl).length tl).2) := by
      rw [extractPathAndBaseFromFullDenom]
      simp only [hcond, and_self, if_true]
    refine ⟨?_, ⟨b, joinSlash tl, ?_, hcond.2⟩, ?_⟩
    · intro e
      have e2 := congrArg String.data e
      simp only [ParseDenomTrace, ht, hsplit, List.headD_cons, hhead, if_false, hex] at e2
      cases hp : (b :: (extractPathAndBaseFromFullDenom
          ("transfer".data :: b :: tl).length tl).1) with
      | nil => simp at hp
      | cons q qs => rw [hp] at e2; simp [joinSlash] at e2
    · rw [ht, List.append_assoc]
      congr 1
      rw [← hjoint]
      obtain ⟨q, qs, rfl⟩ := List.exists_cons_of_ne_nil htl
      simp [joinSlash]
    · rw [hex] at happ
      simp only at happ
      have hpath : (ParseDenomTrace d).Path = String.mk (joinSlash ("transfer".data :: b ::
          (extractPathAndBaseFromFullDenom ("transfer".data :: b :: tl).length tl).1)) := by
        simp only [ParseDenomTrace, ht, hsplit, List.headD_cons, hhead, if_false, hex]
      have hbase : (ParseDenomTrace d).BaseDenom = String.mk (joinSlash
          (extractPathAndBaseFromFullDenom ("transfer".data :: b :: tl).length tl).2) := by
        simp only [ParseDenomTrace, ht, hsplit, List.headD_cons, hhead, if_false, hex]
      rw [hpath, hbase]
      cases hB : (extractPathAndBaseFromFullDenom ("transfer".data :: b :: tl).length tl).2 with
      | nil =>
        right
        rw [hB, List.append_nil] at happ
        have hP : joinSlash ("transfer".data :: b ::
            (extractPathAndBaseFromFullDenom ("transfer".data :: b :: tl).length tl).1)
            = d.data := by
          rw [happ, hjoin, ht]
        apply String.ext
        rw [String.data_append, String.data_append, String.data_append]
        show joinSlash _ ++ _ ++ joinSlash [] = _
        rw [hP]
        simp [joinSlash]
      | cons q qs =>
        left
        have hj := joinSlash_append ("transfer".data :: b ::
          (extractPathAndBaseFromFullDenom ("transfer".data :: b :: tl).length tl).1)
          (q :: qs) (by simp) (by simp)
        rw [← hB, happ, hjoin] at hj
        apply String.ext
        simp only [String.data_append, ht]
        rw [hj, hB]
        simp
  · right
    have hex : extractPathAndBaseFromFullDenom ("transfer".data :: b :: tl).length
        ("transfer".data :: b :: tl) = ([], "transfer".data :: b :: tl) := by
      rw [extractPathAndBaseFromFullDenom]
      simp only [hcond, if_false]
    refine ⟨?_, ?_, ?_⟩
    · simp only [ParseDenomTrace, ht, hsplit, List.headD_cons, hhead, if_false, hex]
      rfl
    · simp only [ParseDenomTrace, ht, hsplit, List.headD_cons, hhead, if_false, hex]
      apply String.ext
      simp only [hjoin, ht]
    · rintro ⟨channelID, rest, hd, hvalid⟩
      apply hcond
      have hno := slash_not_mem_of_validChannel channelID hvalid
      rw [ht, List.append_assoc] at hd
      have ht2 : t = channelID ++ '/' :: rest := List.append_cancel_left hd
      have hs2 := splitSlash_append_slash channelID rest hno
      rw [← ht2, hs] at hs2
      obtain ⟨rfl, htl⟩ := List.cons.inj hs2
      refine ⟨?_, hvalid⟩
      obtain ⟨q, qs, hq⟩ := List.exists_cons_of_ne_nil (splitSlash_ne_nil rest)
      rw [htl, hq]
      simp

theorem GetLocalDenom_transfer_cases (chain : Chain) (d : String)
    (h : HasPrefix d "transfer/" = true) :
    ((ParseDenomTrace d).Path ≠ "" ∧
      GetLocalDenom chain d = "ibc/" ++ chain.Hash
        ((ParseDenomTrace d).Path ++ "/" ++ (ParseDenomTrace d).BaseDenom)) ∨
    ((ParseDenomTrace d).Path = "" ∧ GetLocalDenom chain d = d) := by
  by_cases hpath : (ParseDenomTrace d).Path = ""
  · right
    refine ⟨hpath, ?_⟩
    rcases ParseDenomTrace_transfer_cases d h with ⟨hne, _⟩ | ⟨_, hbase, _⟩
    · exact absurd hpath hne
    · simp only [GetLocalDenom, h, if_true, DenomTrace.IBCDenom, hpath, ne_eq,
        not_true_eq_false, if_false, hbase]
  · left
    refine ⟨hpath, ?_⟩
    simp only [GetLocalDenom, h, if_true, DenomTrace.IBCDenom, DenomTrace.GetFullDenomPath,
      hpath, ne_eq, not_false_eq_true, if_false]
    rfl

theorem hasPrefix_ibc_of_transfer (d : String) (h : HasPrefix d "transfer/" = true) :
    HasPrefix d "ibc/" = false := by
  obtain ⟨t, ht⟩ := data_of_hasPrefix d _ h
  simp [HasPrefix, ht, List.isPrefixOf]

/-! ## Properties of the module -/

/-- C1: for every channel, denomination, channel value and amount, `BuildWasmExecMsg`
succeeds on `send_packet` and on `recv_packet`; the document it returns reads as a JSON object
whose single key is the message type and whose payload carries `channel_id`, `denom`,
`channel_value` and `funds` as given, the channel value as its decimal text, from which the
value is read back. -/
theorem BuildWasmExecMsg_payload (sourceChannel denom : String) (channelValue : Int)
    (amount : String) :
    (∃ doc, BuildWasmExecMsg "send_packet" sourceChannel denom channelValue amount
        = (doc, none) ∧
      parseJSON doc = some (.obj [("send_packet", .obj [("channel_id", .str sourceChannel),
        ("denom", .str denom), ("channel_value", .str (formatInt channelValue)),
        ("funds", .str amount)])])) ∧
    (∃ doc, BuildWasmExecMsg "recv_packet" sourceChannel denom channelValue amount
        = (doc, none) ∧
      parseJSON doc = some (.obj [("recv_packet", .obj [("channel_id", .str sourceChannel),
        ("denom", .str denom), ("channel_value", .str (formatInt channelValue)),
        ("funds", .str amount)])])) ∧
    parseInt (formatInt channelValue) = some channelValue := by
  have hs := parseJSON_tagged "send_packet" [("channel_id", sourceChannel), ("denom", denom),
    ("channel_value", formatInt channelValue), ("funds", amount)] (by simp)
  have hr := parseJSON_tagged "recv_packet" [("channel_id", sourceChannel), ("denom", denom),
    ("channel_value", formatInt channelValue), ("funds", amount)] (by simp)
  simp only [List.map_cons, List.map_nil, strField, strMember] at hs hr
  refine ⟨⟨_, ?_, hs⟩, ⟨_, ?_, hr⟩, parseInt_formatInt channelValue⟩
  · simp [BuildWasmExecMsg, msgSend, SendPacketMsg.Marshal, RateLimitExecMsg.encode, encodeInt]
  · simp [BuildWasmExecMsg, msgSend, msgRecv, RecvPacketMsg.Marshal, RateLimitExecMsg.encode,
      encodeInt]

/-- Counterexample to C2 as stated: with a message type that is neither `send_packet` nor `recv_packet`
and a contract address that does not parse, the call returns the parser's error, not
`ErrBadMessage`. -/
theorem CheckAndUpdateRateLimits_bad_msgType_bad_address :
    "undo_send" ≠ msgSend ∧ "undo_send" ≠ msgRecv ∧
    (CheckAndUpdateRateLimits sampleChain freshContext acceptingEngine "undo_send" "" 50000
        "channel-7" "uosmo" "1000").1
      = .error (.lib "empty address string is not allowed") ∧
    (CheckAndUpdateRateLimits sampleChain freshContext acceptingEngine "undo_send" "" 50000
        "channel-7" "uosmo" "1000").1
      ≠ .error (.registered .ErrBadMessage) := by
  decide

/-- C2, amended: when the message type is neither `send_packet` nor `recv_packet`, the policy
engine is not invoked (the context is returned as it was), and the call returns
`ErrBadMessage` whenever the contract address parses; when it does not parse, the parser's
error is returned. -/
theorem CheckAndUpdateRateLimits_bad_msgType {σ : Type} (chain : Chain) (ctx : Context σ)
    (contractKeeper : PermissionedKeeper σ) (msgType contract : String) (channelValue : Int)
    (sourceChannel denom amount : String)
    (hsend : msgType ≠ msgSend) (hrecv : msgType ≠ msgRecv) :
    (CheckAndUpdateRateLimits chain ctx contractKeeper msgType contract channelValue
        sourceChannel denom amount).2 = ctx ∧
    (∀ addr, chain.AccAddressFromBech32 contract = .ok addr →
      (CheckAndUpdateRateLimits chain ctx contractKeeper msgType contract channelValue
        sourceChannel denom amount).1 = .error (.registered .ErrBadMessage)) ∧
    (∀ err, chain.AccAddressFromBech32 contract = .error err →
      (CheckAndUpdateRateLimits chain ctx contractKeeper msgType contract channelValue
        sourceChannel denom amount).1 = .error err) := by
  have hb : BuildWasmExecMsg msgType sourceChannel denom channelValue amount
      = ("", some (.registered .ErrBadMessage)) := by
    simp [BuildWasmExecMsg, hsend, hrecv]
  refine ⟨?_, ?_, ?_⟩
  · unfold CheckAndUpdateRateLimits
    cases chain.AccAddressFromBech32 contract with
    | error err => rfl
    | ok addr => simp only [hb]
  · intro addr haddr
    simp only [CheckAndUpdateRateLimits, haddr, hb]
  · intro err herr
    simp only [CheckAndUpdateRateLimits, herr]

/-- Instance of the preceding theorem: the message type `undo_send` on a
contract address that parses. -/
theorem CheckAndUpdateRateLimits_bad_msgType_witness :
    "undo_send" ≠ msgSend ∧ "undo_send" ≠ msgRecv ∧
    sampleChain.AccAddressFromBech32 "osmo1" = .ok [111, 115, 109, 111, 49] ∧
    (CheckAndUpdateRateLimits sampleChain freshContext acceptingEngine "undo_send" "osmo1" 50000
        "channel-7" "uosmo" "1000")
      = (.error (.registered .ErrBadMessage), freshContext) :=
  ⟨by decide, by decide, by decide,
    Prod.ext
      ((CheckAndUpdateRateLimits_bad_msgType sampleChain freshContext acceptingEngine
        "undo_send" "osmo1" 50000 "channel-7" "uosmo" "1000" (by decide) (by decide)).2.1
        [111, 115, 109, 111, 49] (by decide))
      (CheckAndUpdateRateLimits_bad_msgType sampleChain freshContext acceptingEngine
        "undo_send" "osmo1" 50000 "channel-7" "uosmo" "1000" (by decide) (by decide)).1⟩

/-- C3: when the contract string does not parse as an address, `CheckAndUpdateRateLimits`
returns the parser's error and the policy engine is not invoked (the context, with its
call log and store, is returned as it was), whatever the other arguments are. -/
theorem CheckAndUpdateRateLimits_invalid_address {σ : Type} (chain : Chain) (ctx : Context σ)
    (contractKeeper : PermissionedKeeper σ) (msgType contract : String) (channelValue : Int)
    (sourceChannel denom amount : String) (err : GoError)
    (haddr : chain.AccAddressFromBech32 contract = .error err) :
    CheckAndUpdateRateLimits chain ctx contractKeeper msgType contract channelValue
      sourceChannel denom amount = (.error err, ctx) := by
  simp only [CheckAndUpdateRateLimits, haddr]

/-- Instance of the preceding theorem: a send through a blank contract
address. -/
theorem CheckAndUpdateRateLimits_invalid_address_witness :
    sampleChain.AccAddressFromBech32 " " = .error (.lib "empty address string is not allowed") ∧
    CheckAndUpdateRateLimits sampleChain freshContext acceptingEngine "send_packet" " " 50000
      "channel-7" "uosmo" "1000"
      = (.error (.lib "empty address string is not allowed"), freshContext) :=
  ⟨by decide,
    CheckAndUpdateRateLimits_invalid_address sampleChain freshContext acceptingEngine
      "send_packet" " " 50000 "channel-7" "uosmo" "1000" _ (by decide)⟩

/-- C4: for a contract address that parses and a message type among `send_packet` and
`recv_packet`, `CheckAndUpdateRateLimits` returns success exactly when the policy-engine call
on the built request succeeds; when the engine fails with an error `e`, the result is
`ErrRateLimitExceeded` wrapped around the text of `e`, and an error returned by the call is
of the kind `ErrRateLimitExceeded` and of no other kind. -/
theorem CheckAndUpdateRateLimits_engine_result {σ : Type} (chain : Chain) (ctx : Context σ)
    (contractKeeper : PermissionedKeeper σ) (msgType contract : String) (channelValue : Int)
    (sourceChannel denom amount : String) (addr : AccAddress)
    (haddr : chain.AccAddressFromBech32 contract = .ok addr)
    (hmsg : msgType = msgSend ∨ msgType = msgRecv) :
    ∃ doc, BuildWasmExecMsg msgType sourceChannel denom channelValue amount = (doc, none) ∧
      ((CheckAndUpdateRateLimits chain ctx contractKeeper msgType contract channelValue
          sourceChannel denom amount).1 = .ok () ↔
        ∃ out, (contractKeeper.run ctx.store addr doc).1 = .ok out) ∧
      (∀ e, (contractKeeper.run ctx.store addr doc).1 = .error e →
        (CheckAndUpdateRateLimits chain ctx contractKeeper msgType contract channelValue
            sourceChannel denom amount).1
          = .error (Wrap (.registered .ErrRateLimitExceeded) e.Error) ∧
        (Wrap (.registered .ErrRateLimitExceeded) e.Error).Error
          = e.Error ++ ": " ++ ErrKind.ErrRateLimitExceeded.description) ∧
      (∀ err, (CheckAndUpdateRateLimits chain ctx contractKeeper msgType contract channelValue
            sourceChannel denom amount).1 = .error err →
        ∀ kind, err.isKind kind = true ↔ kind = .ErrRateLimitExceeded) := by
  obtain ⟨doc, hdoc⟩ : ∃ doc,
      BuildWasmExecMsg msgType sourceChannel denom channelValue amount = (doc, none) := by
    rcases hmsg with h | h
    · subst h; exact ⟨_, rfl⟩
    · subst h; exact ⟨_, rfl⟩
  refine ⟨doc, hdoc, ?_, ?_, ?_⟩
  · simp only [CheckAndUpdateRateLimits, haddr, hdoc, PermissionedKeeper.Sudo]
    cases (contractKeeper.run ctx.store addr doc).1 <;> simp
  · intro e he
    refine ⟨?_, rfl⟩
    simp only [CheckAndUpdateRateLimits, haddr, hdoc, PermissionedKeeper.Sudo, he]
  · intro err herr kind
    simp only [CheckAndUpdateRateLimits, haddr, hdoc, PermissionedKeeper.Sudo] at herr
    cases hrun : (contractKeeper.run ctx.store addr doc).1 with
    | ok out => rw [hrun] at herr; simp at herr
    | error e =>
      rw [hrun] at herr
      simp only [Except.error.injEq] at herr
      subst herr
      simp [Wrap, GoError.isKind, eq_comm]

/-- Instance of the preceding theorem: a send refused by the engine. -/
theorem CheckAndUpdateRateLimits_engine_result_witness :
    sampleChain.AccAddressFromBech32 "osmo1" = .ok [111, 115, 109, 111, 49] ∧
    (CheckAndUpdateRateLimits sampleChain freshContext refusingEngine "send_packet" "osmo1" 50000
        "channel-7" "uosmo" "1000").1
      = .error (Wrap (.registered .ErrRateLimitExceeded) "quota exceeded") := by
  refine ⟨by decide, ?_⟩
  obtain ⟨doc, _, _, herr, _⟩ := CheckAndUpdateRateLimits_engine_result sampleChain
    freshContext refusingEngine "send_packet" "osmo1" 50000 "channel-7" "uosmo" "1000"
    [111, 115, 109, 111, 49] (by decide) (Or.inl (by decide))
  exact (herr (.lib "quota exceeded") rfl).1

/-- C5: for a contract address that parses, `UndoSendRateLimit` passes exactly one request to
the policy engine, and that request reads as a JSON object with the single key `undo_send`
whose value has exactly the fields `channel_id`, `denom` and `funds`, holding the channel,
the denomination and the amount; the document of the scenario of the spec reads as that
object for `channel-7`, `uosmo` and `1000`. -/
theorem UndoSendRateLimit_request {σ : Type} (chain : Chain) (ctx : Context σ)
    (contractKeeper : PermissionedKeeper σ) (contract sourceChannel denom amount : String)
    (addr : AccAddress) (haddr : chain.AccAddressFromBech32 contract = .ok addr) :
    (∃ doc, (UndoSendRateLimit chain ctx contractKeeper contract sourceChannel denom
          amount).2.calls = ctx.calls ++ [KeeperCall.Sudo addr doc] ∧
      parseJSON doc = some (.obj [("undo_send", .obj [("channel_id", .str sourceChannel),
        ("denom", .str denom), ("funds", .str amount)])])) ∧
    parseJSON
        "\x7b\"undo_send\": \x7b\"channel_id\": \"channel-7\", \"denom\": \"uosmo\", \"funds\": \"1000\"\x7d\x7d"
      = some (.obj [("undo_send", .obj [("channel_id", .str "channel-7"),
        ("denom", .str "uosmo"), ("funds", .str "1000")])]) := by
  have hp := parseJSON_tagged "undo_send" [("channel_id", sourceChannel), ("denom", denom),
    ("funds", amount)] (by simp)
  simp only [List.map_cons, List.map_nil, strField, strMember] at hp
  refine ⟨⟨_, ?_, hp⟩, rfl⟩
  simp only [UndoSendRateLimit, haddr, UndoSendMsg.Marshal, UndoSendMsgContent.encode,
    PermissionedKeeper.Sudo]
  cases (contractKeeper.run ctx.store addr _).1 <;> rfl

/-- Instance of the preceding theorem: the scenario of the spec, an undo of 1000 `uosmo`
on `channel-7`; the request sent is the compact form of the document of the spec. -/
theorem UndoSendRateLimit_request_witness :
    sampleChain.AccAddressFromBech32 "osmo1" = .ok [111, 115, 109, 111, 49] ∧
    ((∃ doc, (UndoSendRateLimit sampleChain freshContext acceptingEngine "osmo1" "channel-7"
          "uosmo" "1000").2.calls
          = freshContext.calls ++ [KeeperCall.Sudo [111, 115, 109, 111, 49] doc] ∧
      parseJSON doc = some (.obj [("undo_send", .obj [("channel_id", .str "channel-7"),
        ("denom", .str "uosmo"), ("funds", .str "1000")])])) ∧
    parseJSON
        "\x7b\"undo_send\": \x7b\"channel_id\": \"channel-7\", \"denom\": \"uosmo\", \"funds\": \"1000\"\x7d\x7d"
      = some (.obj [("undo_send", .obj [("channel_id", .str "channel-7"),
        ("denom", .str "uosmo"), ("funds", .str "1000")])])) ∧
    (UndoSendRateLimit sampleChain freshContext acceptingEngine "osmo1" "channel-7" "uosmo"
        "1000").2.calls
      = [KeeperCall.Sudo [111, 115, 109, 111, 49]
          "\x7b\"undo_send\":\x7b\"channel_id\":\"channel-7\",\"denom\":\"uosmo\",\"funds\":\"1000\"\x7d\x7d"] :=
  ⟨by decide,
    UndoSendRateLimit_request sampleChain freshContext acceptingEngine "osmo1" "channel-7"
      "uosmo" "1000" [111, 115, 109, 111, 49] (by decide),
    by decide⟩

/-- C6: for a contract address that parses, `UndoSendRateLimit` returns success exactly when
the policy-engine call succeeds; when the engine fails with an error `e`, the result is
`ErrContractError` wrapped around the text of `e`, and an error returned by the call is of
the kind `ErrContractError` and of no other kind, so never `ErrRateLimitExceeded`. -/
theorem UndoSendRateLimit_engine_result {σ : Type} (chain : Chain) (ctx : Context σ)
    (contractKeeper : PermissionedKeeper σ) (contract sourceChannel denom amount : String)
    (addr : AccAddress) (haddr : chain.AccAddressFromBech32 contract = .ok addr) :
    ∃ doc, UndoSendMsg.Marshal
        { UndoSend := { ChannelId := sourceChannel, Denom := denom, Funds := amount } }
        = (doc, none) ∧
      ((UndoSendRateLimit chain ctx contractKeeper contract sourceChannel denom amount).1
          = .ok () ↔
        ∃ out, (contractKeeper.run ctx.store addr doc).1 = .ok out) ∧
      (∀ e, (contractKeeper.run ctx.store addr doc).1 = .error e →
        (UndoSendRateLimit chain ctx contractKeeper contract sourceChannel denom amount).1
          = .error (Wrap (.registered .ErrContractError) e.Error)) ∧
      (∀ err, (UndoSendRateLimit chain ctx contractKeeper contract sourceChannel denom
            amount).1 = .error err →
        (∀ kind, err.isKind kind = true ↔ kind = .ErrContractError) ∧
        err.isKind .ErrRateLimitExceeded = false) := by
  refine ⟨_, rfl, ?_, ?_, ?_⟩
  · simp only [UndoSendRateLimit, haddr, UndoSendMsg.Marshal, PermissionedKeeper.Sudo]
    cases (contractKeeper.run ctx.store addr _).1 <;> simp
  · intro e he
    simp only [UndoSendRateLimit, haddr, UndoSendMsg.Marshal, PermissionedKeeper.Sudo, he]
  · intro err herr
    simp only [UndoSendRateLimit, haddr, UndoSendMsg.Marshal, PermissionedKeeper.Sudo] at herr
    cases hrun : (contractKeeper.run ctx.store addr _).1 with
    | ok out => rw [hrun] at herr; simp at herr
    | error e =>
      rw [hrun] at herr
      simp only [Except.error.injEq] at herr
      subst herr
      simp [Wrap, GoError.isKind, eq_comm]

/-- Instance of the preceding theorem: an undo refused by the engine. -/
theorem UndoSendRateLimit_engine_result_witness :
    sampleChain.AccAddressFromBech32 "osmo1" = .ok [111, 115, 109, 111, 49] ∧
    (UndoSendRateLimit sampleChain freshContext refusingEngine "osmo1" "channel-7" "uosmo"
        "1000").1
      = .error (Wrap (.registered .ErrContractError) "quota exceeded") := by
  refine ⟨by decide, ?_⟩
  obtain ⟨doc, _, _, herr, _⟩ := UndoSendRateLimit_engine_result sampleChain freshContext
    refusingEngine "osmo1" "channel-7" "uosmo" "1000" [111, 115, 109, 111, 49] (by decide)
  exact herr (.lib "quota exceeded") rfl

/-- C7: a denomination that does not begin with `transfer/` is returned unchanged by
`GetLocalDenom`. -/
theorem GetLocalDenom_of_plain_denom (chain : Chain) (denom : String)
    (h : HasPrefix denom "transfer/" = false) : GetLocalDenom chain denom = denom := by
  simp [GetLocalDenom, h]

/-- Instance of the preceding theorem: the word `transfer` without the slash, the empty
denomination, and a denomination that is already hashed. -/
theorem GetLocalDenom_of_plain_denom_witness :
    HasPrefix "transfer" "transfer/" = false ∧
    GetLocalDenom sampleChain "transfer" = "transfer" ∧
    GetLocalDenom sampleChain "" = "" ∧
    GetLocalDenom sampleChain "ibc/27394F" = "ibc/27394F" :=
  ⟨by decide, GetLocalDenom_of_plain_denom sampleChain "transfer" (by decide),
    GetLocalDenom_of_plain_denom sampleChain "" (by decide),
    GetLocalDenom_of_plain_denom sampleChain "ibc/27394F" (by decide)⟩

/-- Counterexample to C8 as stated: `transfer/uatom` begins with `transfer/`, yet
`GetLocalDenom` returns it unchanged, so the result does not begin with `ibc/`; and the trace
parsed from `transfer/channel-0/gamm/pool/1` has the base denomination `gamm/pool/1`, not what
follows the last slash. -/
theorem GetLocalDenom_transfer_without_channel :
    HasPrefix "transfer/uatom" "transfer/" = true ∧
    GetLocalDenom sampleChain "transfer/uatom" = "transfer/uatom" ∧
    HasPrefix (GetLocalDenom sampleChain "transfer/uatom") "ibc/" = false ∧
    (ParseDenomTrace "transfer/channel-0/gamm/pool/1").Path = "transfer/channel-0" ∧
    (ParseDenomTrace "transfer/channel-0/gamm/pool/1").BaseDenom = "gamm/pool/1" := by
  decide

/-- C8, amended: for a denomination `d` that begins with `transfer/`, the trace parsed from
`d` has a path exactly when `d` continues with a channel identifier and a further slash. In
that case `GetLocalDenom` returns `ibc/` followed by the hash of the full trace, path, slash
and base denomination, so the result begins with `ibc/`, and the full trace is `d` itself, or
`d` and a slash when nothing is left for the base denomination. In the other case
`GetLocalDenom` returns `d` unchanged. The result is a function of `d` and of the hash
alone. -/
theorem GetLocalDenom_of_transfer_trace (chain : Chain) (d : String)
    (h : HasPrefix d "transfer/" = true) :
    ((ParseDenomTrace d).Path ≠ "" ↔
      ∃ channelID rest, d.data = "transfer/".data ++ channelID ++ '/' :: rest ∧
        IsValidChannelID channelID = true) ∧
    ((ParseDenomTrace d).Path ≠ "" →
      GetLocalDenom chain d = "ibc/" ++ chain.Hash
        ((ParseDenomTrace d).Path ++ "/" ++ (ParseDenomTrace d).BaseDenom) ∧
      HasPrefix (GetLocalDenom chain d) "ibc/" = true ∧
      ((ParseDenomTrace d).Path ++ "/" ++ (ParseDenomTrace d).BaseDenom = d ∨
        (ParseDenomTrace d).Path ++ "/" ++ (ParseDenomTrace d).BaseDenom = d ++ "/")) ∧
    ((ParseDenomTrace d).Path = "" → GetLocalDenom chain d = d) := by
  refine ⟨?_, ?_, ?_⟩
  · rcases ParseDenomTrace_transfer_cases d h with ⟨hne, hex, _⟩ | ⟨he, _, hnex⟩
    · exact ⟨fun _ => hex, fun _ => hne⟩
    · exact ⟨fun hne => absurd he hne, fun hex => absurd hex hnex⟩
  · intro hne
    rcases GetLocalDenom_transfer_cases chain d h with ⟨_, hval⟩ | ⟨he, _⟩
    · refine ⟨hval, ?_, ?_⟩
      · rw [hval]; exact (hasPrefix_ibc_append _).1
      · rcases ParseDenomTrace_transfer_cases d h with ⟨_, _, hfull⟩ | ⟨he, _, _⟩
        · exact hfull
        · exact absurd he hne
    · exact absurd he hne
  · intro he
    rcases GetLocalDenom_transfer_cases chain d h with ⟨hne, _⟩ | ⟨_, hval⟩
    · exact absurd he hne
    · exact hval

/-- Instance of the preceding theorem: the scenario of the spec, the trace
`transfer/channel-0/uatom`. -/
theorem GetLocalDenom_of_transfer_trace_witness :
    HasPrefix "transfer/channel-0/uatom" "transfer/" = true ∧
    (ParseDenomTrace "transfer/channel-0/uatom").Path ≠ "" ∧
    GetLocalDenom sampleChain "transfer/channel-0/uatom"
      = "ibc/" ++ sampleChain.Hash ((ParseDenomTrace "transfer/channel-0/uatom").Path ++ "/"
          ++ (ParseDenomTrace "transfer/channel-0/uatom").BaseDenom) ∧
    (ParseDenomTrace "transfer/channel-0/uatom").Path = "transfer/channel-0" ∧
    (ParseDenomTrace "transfer/channel-0/uatom").BaseDenom = "uatom" :=
  ⟨by decide, by decide,
    ((GetLocalDenom_of_transfer_trace sampleChain "transfer/channel-0/uatom" (by decide)).2.1
      (by decide)).1,
    by decide, by decide⟩

/-- C9: for a denomination that begins with `ibc/`, `CalculateChannelValue` returns the amount
of the supply-with-offset lookup for that denomination, whatever the port and the channel
are, and the supply lookup is the only keeper call it makes: no balance is read. -/
theorem CalculateChannelValue_of_ibc_denom {σ : Type} (chain : Chain) (ctx : Context σ)
    (denom port channel : String) (bankKeeper : BankKeeper σ)
    (h : HasPrefix denom "ibc/" = true) :
    CalculateChannelValue chain ctx denom port channel bankKeeper
      = ((bankKeeper.supplyWithOffset ctx.store denom).Amount,
          { ctx with calls := ctx.calls ++ [KeeperCall.GetSupplyWithOffset denom] }) ∧
    (∀ port2 channel2, CalculateChannelValue chain ctx denom port2 channel2 bankKeeper
      = CalculateChannelValue chain ctx denom port channel bankKeeper) := by
  constructor
  · simp only [CalculateChannelValue, h, if_true, BankKeeper.GetSupplyWithOffset]
  · intro port2 channel2
    simp only [CalculateChannelValue, h, if_true]

/-- Instance of the preceding theorem: a hashed denomination on two different
channels. -/
theorem CalculateChannelValue_of_ibc_denom_witness :
    HasPrefix "ibc/27394F" "ibc/" = true ∧
    CalculateChannelValue sampleChain freshContext "ibc/27394F" "transfer" "channel-7" sampleBank
      = (700, { store := 0, calls := [KeeperCall.GetSupplyWithOffset "ibc/27394F"] }) ∧
    CalculateChannelValue sampleChain freshContext "ibc/27394F" "other" "channel-0" sampleBank
      = CalculateChannelValue sampleChain freshContext "ibc/27394F" "transfer" "channel-7"
          sampleBank :=
  ⟨by decide,
    (CalculateChannelValue_of_ibc_denom sampleChain freshContext "ibc/27394F" "transfer"
      "channel-7" sampleBank (by decide)).1,
    (CalculateChannelValue_of_ibc_denom sampleChain freshContext "ibc/27394F" "transfer"
      "channel-7" sampleBank (by decide)).2 "other" "channel-0"⟩

/-- C10: for a denomination that does not begin with `ibc/`, `CalculateChannelValue` returns
the balance of that denomination held by the escrow address of the port and the channel, and
the balance lookup is the only keeper call it makes: the supply is not read. -/
theorem CalculateChannelValue_of_native {σ : Type} (chain : Chain) (ctx : Context σ)
    (denom port channel : String) (bankKeeper : BankKeeper σ)
    (h : HasPrefix denom "ibc/" = false) :
    CalculateChannelValue chain ctx denom port channel bankKeeper
      = ((bankKeeper.balance ctx.store (chain.GetEscrowAddress port channel) denom).Amount,
          { ctx with calls := ctx.calls ++
              [KeeperCall.GetBalance (chain.GetEscrowAddress port channel) denom] }) := by
  by_cases hany : channel = "any"
  · simp [CalculateChannelValue, h, hany, BankKeeper.GetBalance]
  · simp [CalculateChannelValue, h, hany, BankKeeper.GetBalance]

/-- Instance of the preceding theorem: the native denomination `uosmo` on
`channel-7`. -/
theorem CalculateChannelValue_of_native_witness :
    HasPrefix "uosmo" "ibc/" = false ∧
    CalculateChannelValue sampleChain freshContext "uosmo" "transfer" "channel-7" sampleBank
      = (50000, { store := 0, calls := [KeeperCall.GetBalance
          (sampleChain.GetEscrowAddress "transfer" "channel-7") "uosmo"] }) :=
  ⟨by decide,
    CalculateChannelValue_of_native sampleChain freshContext "uosmo" "transfer" "channel-7"
      sampleBank (by decide)⟩

/-- Counterexample to C11 as stated: for the send of 1000 `uosmo` on `channel-7` with channel
value 50000, the request built holds `channel_value` as the JSON string `"50000"`, so it does
not read as the document of the spec, which holds the JSON integer 50000. -/
theorem BuildWasmExecMsg_channel_value_not_integer :
    (BuildWasmExecMsg "send_packet" "channel-7" "uosmo" 50000 "1000").1
      = "\x7b\"send_packet\":\x7b\"channel_id\":\"channel-7\",\"denom\":\"uosmo\",\"channel_value\":\"50000\",\"funds\":\"1000\"\x7d\x7d" ∧
    parseJSON (BuildWasmExecMsg "send_packet" "channel-7" "uosmo" 50000 "1000").1
      ≠ parseJSON
        "\x7b\"send_packet\": \x7b\"channel_id\": \"channel-7\", \"denom\": \"uosmo\", \"channel_value\": 50000, \"funds\": \"1000\"\x7d\x7d" := by
  refine ⟨by decide, ?_⟩
  have h1 : parseJSON (BuildWasmExecMsg "send_packet" "channel-7" "uosmo" 50000 "1000").1
      = some (.obj [("send_packet", .obj [("channel_id", .str "channel-7"),
          ("denom", .str "uosmo"), ("channel_value", .str "50000"),
          ("funds", .str "1000")])]) := rfl
  have h2 : parseJSON
      "\x7b\"send_packet\": \x7b\"channel_id\": \"channel-7\", \"denom\": \"uosmo\", \"channel_value\": 50000, \"funds\": \"1000\"\x7d\x7d"
      = some (.obj [("send_packet", .obj [("channel_id", .str "channel-7"),
          ("denom", .str "uosmo"), ("channel_value", .num 50000),
          ("funds", .str "1000")])]) := rfl
  rw [h1, h2]
  simp

/-- C11, amended: for the send of 1000 `uosmo` on `channel-7` with channel value 50000, the
request built, and passed to the policy engine, is the compact form of the JSON document
`{"send_packet": {"channel_id": "channel-7", "denom": "uosmo", "channel_value": "50000",
"funds": "1000"}}`: the fields come in that order, and `channel_value` and `funds` are both
JSON strings, the channel value being the decimal text of the integer. -/
theorem BuildWasmExecMsg_send_scenario :
    BuildWasmExecMsg "send_packet" "channel-7" "uosmo" 50000 "1000"
      = ("\x7b\"send_packet\":\x7b\"channel_id\":\"channel-7\",\"denom\":\"uosmo\",\"channel_value\":\"50000\",\"funds\":\"1000\"\x7d\x7d",
          none) ∧
    parseJSON (BuildWasmExecMsg "send_packet" "channel-7" "uosmo" 50000 "1000").1
      = some (.obj [("send_packet", .obj [("channel_id", .str "channel-7"),
          ("denom", .str "uosmo"), ("channel_value", .str "50000"),
          ("funds", .str "1000")])]) ∧
    parseJSON
        "\x7b\"send_packet\": \x7b\"channel_id\": \"channel-7\", \"denom\": \"uosmo\", \"channel_value\": \"50000\", \"funds\": \"1000\"\x7d\x7d"
      = parseJSON (BuildWasmExecMsg "send_packet" "channel-7" "uosmo" 50000 "1000").1 ∧
    parseInt "50000" = some 50000 ∧
    (CheckAndUpdateRateLimits sampleChain freshContext acceptingEngine "send_packet" "osmo1"
        50000 "channel-7" "uosmo" "1000").2.calls
      = [KeeperCall.Sudo [111, 115, 109, 111, 49]
          (BuildWasmExecMsg "send_packet" "channel-7" "uosmo" 50000 "1000").1] :=
  ⟨by decide, rfl, rfl, by decide, by decide⟩

theorem countSudo_append_sudo (calls : List KeeperCall) (addr : AccAddress) (msg : String) :
    countSudo (calls ++ [KeeperCall.Sudo addr msg]) = countSudo calls + 1 := by
  induction calls with
  | nil => rfl
  | cons call rest ih => cases call <;> simp [countSudo, ih]

/-- C12: one call of `CheckAndUpdateRateLimits` or of `UndoSendRateLimit` adds at most one
policy-engine invocation to the log of keeper calls. When the contract address parses and,
for `CheckAndUpdateRateLimits`, the message type is `send_packet` or `recv_packet`, it adds
exactly one, the built request on the parsed address; the call then returns success when that
single run succeeds and the wrapped error of that single run when it fails, and the store
left is the one that run left: the failure is returned at once, with no second attempt. -/
theorem engine_invoked_at_most_once {σ : Type} (chain : Chain) (ctx : Context σ)
    (contractKeeper : PermissionedKeeper σ) (msgType contract : String) (channelValue : Int)
    (sourceChannel denom amount : String) :
    countSudo (CheckAndUpdateRateLimits chain ctx contractKeeper msgType contract channelValue
        sourceChannel denom amount).2.calls ≤ countSudo ctx.calls + 1 ∧
    countSudo (UndoSendRateLimit chain ctx contractKeeper contract sourceChannel denom
        amount).2.calls ≤ countSudo ctx.calls + 1 ∧
    (∀ addr, chain.AccAddressFromBech32 contract = .ok addr →
      (msgType = msgSend ∨ msgType = msgRecv) →
      CheckAndUpdateRateLimits chain ctx contractKeeper msgType contract channelValue
          sourceChannel denom amount
        = ((match (contractKeeper.run ctx.store addr
              (BuildWasmExecMsg msgType sourceChannel denom channelValue amount).1).1 with
            | .error err => .error (Wrap (.registered .ErrRateLimitExceeded) err.Error)
            | .ok _ => .ok ()),
          { store := (contractKeeper.run ctx.store addr
              (BuildWasmExecMsg msgType sourceChannel denom channelValue amount).1).2,
            calls := ctx.calls ++ [KeeperCall.Sudo addr
              (BuildWasmExecMsg msgType sourceChannel denom channelValue amount).1] }) ∧
      (∀ err, (contractKeeper.run ctx.store addr
            (BuildWasmExecMsg msgType sourceChannel denom channelValue amount).1).1
          = .error err →
        (CheckAndUpdateRateLimits chain ctx contractKeeper msgType contract channelValue
            sourceChannel denom amount).1
          = .error (Wrap (.registered .ErrRateLimitExceeded) err.Error)) ∧
      countSudo (CheckAndUpdateRateLimits chain ctx contractKeeper msgType contract
          channelValue sourceChannel denom amount).2.calls = countSudo ctx.calls + 1) ∧
    (∀ addr, chain.AccAddressFromBech32 contract = .ok addr →
      UndoSendRateLimit chain ctx contractKeeper contract sourceChannel denom amount
        = ((match (contractKeeper.run ctx.store addr
              (UndoSendMsg.Marshal ⟨⟨sourceChannel, denom, amount⟩⟩).1).1 with
            | .error err => .error (Wrap (.registered .ErrContractError) err.Error)
            | .ok _ => .ok ()),
          { store := (contractKeeper.run ctx.store addr
              (UndoSendMsg.Marshal ⟨⟨sourceChannel, denom, amount⟩⟩).1).2,
            calls := ctx.calls ++ [KeeperCall.Sudo addr
              (UndoSendMsg.Marshal ⟨⟨sourceChannel, denom, amount⟩⟩).1] }) ∧
      (∀ err, (contractKeeper.run ctx.store addr
            (UndoSendMsg.Marshal ⟨⟨sourceChannel, denom, amount⟩⟩).1).1 = .error err →
        (UndoSendRateLimit chain ctx contractKeeper contract sourceChannel denom amount).1
          = .error (Wrap (.registered .ErrContractError) err.Error)) ∧
      countSudo (UndoSendRateLimit chain ctx contractKeeper contract sourceChannel denom
          amount).2.calls = countSudo ctx.calls + 1) := by
  have hcheck : ∀ addr, chain.AccAddressFromBech32 contract = .ok addr →
      (msgType = msgSend ∨ msgType = msgRecv) →
      CheckAndUpdateRateLimits chain ctx contractKeeper msgType contract channelValue
          sourceChannel denom amount
        = ((match (contractKeeper.run ctx.store addr
              (BuildWasmExecMsg msgType sourceChannel denom channelValue amount).1).1 with
            | .error err => .error (Wrap (.registered .ErrRateLimitExceeded) err.Error)
            | .ok _ => .ok ()),
          { store := (contractKeeper.run ctx.store addr
              (BuildWasmExecMsg msgType sourceChannel denom channelValue amount).1).2,
            calls := ctx.calls ++ [KeeperCall.Sudo addr
              (BuildWasmExecMsg msgType sourceChannel denom channelValue amount).1] }) := by
    intro addr haddr hmsg
    obtain ⟨doc, hdoc⟩ : ∃ doc,
        BuildWasmExecMsg msgType sourceChannel denom channelValue amount = (doc, none) := by
      rcases hmsg with h | h
      · subst h; exact ⟨_, rfl⟩
      · subst h; exact ⟨_, rfl⟩
    simp only [CheckAndUpdateRateLimits, haddr, hdoc, PermissionedKeeper.Sudo]
    cases (contractKeeper.run ctx.store addr doc).1 <;> rfl
  have hundo : ∀ addr, chain.AccAddressFromBech32 contract = .ok addr →
      UndoSendRateLimit chain ctx contractKeeper contract sourceChannel denom amount
        = ((match (contractKeeper.run ctx.store addr
              (UndoSendMsg.Marshal ⟨⟨sourceChannel, denom, amount⟩⟩).1).1 with
            | .error err => .error (Wrap (.registered .ErrContractError) err.Error)
            | .ok _ => .ok ()),
          { store := (contractKeeper.run ctx.store addr
              (UndoSendMsg.Marshal ⟨⟨sourceChannel, denom, amount⟩⟩).1).2,
            calls := ctx.calls ++ [KeeperCall.Sudo addr
              (UndoSendMsg.Marshal ⟨⟨sourceChannel, denom, amount⟩⟩).1] }) := by
    intro addr haddr
    simp only [UndoSendRateLimit, haddr, UndoSendMsg.Marshal, PermissionedKeeper.Sudo]
    cases (contractKeeper.run ctx.store addr _).1 <;> rfl
  refine ⟨?_, ?_, ?_, ?_⟩
  · cases haddr : chain.AccAddressFromBech32 contract with
    | error err => simp [CheckAndUpdateRateLimits, haddr]
    | ok addr =>
      by_cases hmsg : msgType = msgSend ∨ msgType = msgRecv
      · rw [hcheck addr haddr hmsg, countSudo_append_sudo]
      · have hb : BuildWasmExecMsg msgType sourceChannel denom channelValue amount
            = ("", some (.registered .ErrBadMessage)) := by
          simp only [not_or] at hmsg
          simp [BuildWasmExecMsg, hmsg.1, hmsg.2]
        simp [CheckAndUpdateRateLimits, haddr, hb]
  · cases haddr : chain.AccAddressFromBech32 contract with
    | error err => simp [UndoSendRateLimit, haddr]
    | ok addr => rw [hundo addr haddr, countSudo_append_sudo]
  · intro addr haddr hmsg
    refine ⟨hcheck addr haddr hmsg, ?_, ?_⟩
    · intro err herr
      rw [hcheck addr haddr hmsg, herr]
    · rw [hcheck addr haddr hmsg, countSudo_append_sudo]
  · intro addr haddr
    refine ⟨hundo addr haddr, ?_, ?_⟩
    · intro err herr
      rw [hundo addr haddr, herr]
    · rw [hundo addr haddr, countSudo_append_sudo]

/-- Instance of the preceding theorem: a send and an undo that the engine refuses; each leaves
one engine invocation in the log and returns the wrapped refusal. -/
theorem engine_invoked_at_most_once_witness :
    sampleChain.AccAddressFromBech32 "osmo1" = .ok [111, 115, 109, 111, 49] ∧
    countSudo (CheckAndUpdateRateLimits sampleChain freshContext refusingEngine "send_packet"
        "osmo1" 50000 "channel-7" "uosmo" "1000").2.calls = countSudo freshContext.calls + 1 ∧
    (CheckAndUpdateRateLimits sampleChain freshContext refusingEngine "send_packet"
        "osmo1" 50000 "channel-7" "uosmo" "1000").1
      = .error (Wrap (.registered .ErrRateLimitExceeded) "quota exceeded") ∧
    countSudo (UndoSendRateLimit sampleChain freshContext refusingEngine "osmo1" "channel-7"
        "uosmo" "1000").2.calls = countSudo freshContext.calls + 1 ∧
    (UndoSendRateLimit sampleChain freshContext refusingEngine "osmo1" "channel-7" "uosmo"
        "1000").1
      = .error (Wrap (.registered .ErrContractError) "quota exceeded") :=
  ⟨by decide,
    ((engine_invoked_at_most_once sampleChain freshContext refusingEngine "send_packet" "osmo1"
      50000 "channel-7" "uosmo" "1000").2.2.1 [111, 115, 109, 111, 49] (by decide)
      (Or.inl (by decide))).2.2,
    ((engine_invoked_at_most_once sampleChain freshContext refusingEngine "send_packet" "osmo1"
      50000 "channel-7" "uosmo" "1000").2.2.1 [111, 115, 109, 111, 49] (by decide)
      (Or.inl (by decide))).2.1 (.lib "quota exceeded") rfl,
    ((engine_invoked_at_most_once sampleChain freshContext refusingEngine "send_packet" "osmo1"
      50000 "channel-7" "uosmo" "1000").2.2.2 [111, 115, 109, 111, 49] (by decide)).2.2,
    ((engine_invoked_at_most_once sampleChain freshContext refusingEngine "send_packet" "osmo1"
      50000 "channel-7" "uosmo" "1000").2.2.2 [111, 115, 109, 111, 49] (by decide)).2.1
      (.lib "quota exceeded") rfl⟩

/-- C13: for a denomination that does not begin with `ibc/`, `CalculateChannelValue` on the
channel `any` returns what the single-channel rule of the spec returns on that input, the
balance of the escrow address of the port and `any`, read with one balance lookup and no
other keeper call; the two branches on the channel being `any` agree, since on every channel
the function is the single-channel rule. -/
theorem CalculateChannelValue_any_channel {σ : Type} (chain : Chain) (ctx : Context σ)
    (denom port : String) (bankKeeper : BankKeeper σ)
    (h : HasPrefix denom "ibc/" = false) :
    CalculateChannelValue chain ctx denom port "any" bankKeeper
      = singleChannelEscrowValue chain ctx denom port "any" bankKeeper ∧
    (CalculateChannelValue chain ctx denom port "any" bankKeeper).1
      = (bankKeeper.balance ctx.store (chain.GetEscrowAddress port "any") denom).Amount ∧
    (CalculateChannelValue chain ctx denom port "any" bankKeeper).2.calls
      = ctx.calls ++ [KeeperCall.GetBalance (chain.GetEscrowAddress port "any") denom] ∧
    (∀ channel, CalculateChannelValue chain ctx denom port channel bankKeeper
      = singleChannelEscrowValue chain ctx denom port channel bankKeeper) := by
  have hall : ∀ channel, CalculateChannelValue chain ctx denom port channel bankKeeper
      = singleChannelEscrowValue chain ctx denom port channel bankKeeper := by
    intro channel
    by_cases hany : channel = "any"
    · simp [CalculateChannelValue, singleChannelEscrowValue, h, hany, BankKeeper.GetBalance]
    · simp [CalculateChannelValue, singleChannelEscrowValue, h, hany, BankKeeper.GetBalance]
  refine ⟨hall "any", ?_, ?_, hall⟩
  · rw [hall "any"]; rfl
  · rw [hall "any"]; rfl

/-- Instance of the preceding theorem: the native denomination `uosmo` on the channel
`any`. -/
theorem CalculateChannelValue_any_channel_witness :
    HasPrefix "uosmo" "ibc/" = false ∧
    CalculateChannelValue sampleChain freshContext "uosmo" "transfer" "any" sampleBank
      = singleChannelEscrowValue sampleChain freshContext "uosmo" "transfer" "any" sampleBank ∧
    (CalculateChannelValue sampleChain freshContext "uosmo" "transfer" "any" sampleBank).1
      = 50000 :=
  ⟨by decide,
    (CalculateChannelValue_any_channel sampleChain freshContext "uosmo" "transfer" sampleBank
      (by decide)).1,
    (CalculateChannelValue_any_channel sampleChain freshContext "uosmo" "transfer" sampleBank
      (by decide)).2.1⟩

/-- C14: `BuildWasmExecMsg` returns an error exactly when the message type is neither
`send_packet` nor `recv_packet`; the error is then `ErrBadMessage` and the bytes returned are
empty, whatever the other arguments are. The comparison is exact: `Send`, `send`, `undo_send`
and the empty string are refused. -/
theorem BuildWasmExecMsg_error_iff (msgType sourceChannel denom : String) (channelValue : Int)
    (amount : String) :
    ((BuildWasmExecMsg msgType sourceChannel denom channelValue amount).2 ≠ none ↔
      (msgType ≠ msgSend ∧ msgType ≠ msgRecv)) ∧
    (msgType ≠ msgSend → msgType ≠ msgRecv →
      BuildWasmExecMsg msgType sourceChannel denom channelValue amount
        = ("", some (.registered .ErrBadMessage))) ∧
    BuildWasmExecMsg "Send" sourceChannel denom channelValue amount
      = ("", some (.registered .ErrBadMessage)) ∧
    BuildWasmExecMsg "send" sourceChannel denom channelValue amount
      = ("", some (.registered .ErrBadMessage)) ∧
    BuildWasmExecMsg "undo_send" sourceChannel denom channelValue amount
      = ("", some (.registered .ErrBadMessage)) ∧
    BuildWasmExecMsg "" sourceChannel denom channelValue amount
      = ("", some (.registered .ErrBadMessage)) := by
  have hbad : ∀ m : String, m ≠ msgSend → m ≠ msgRecv →
      BuildWasmExecMsg m sourceChannel denom channelValue amount
        = ("", some (.registered .ErrBadMessage)) := by
    intro m h1 h2
    simp [BuildWasmExecMsg, h1, h2]
  refine ⟨?_, hbad msgType, hbad _ (by decide) (by decide), hbad _ (by decide) (by decide),
    hbad _ (by decide) (by decide), hbad _ (by decide) (by decide)⟩
  constructor
  · intro herr
    by_contra hcon
    have hmsg : msgType = msgSend ∨ msgType = msgRecv := by
      by_cases h1 : msgType = msgSend
      · exact Or.inl h1
      · by_cases h2 : msgType = msgRecv
        · exact Or.inr h2
        · exact absurd ⟨h1, h2⟩ hcon
    apply herr
    rcases hmsg with h | h
    · subst h; rfl
    · subst h; rfl
  · rintro ⟨h1, h2⟩
    rw [hbad msgType h1 h2]
    simp

/-- Instance of the preceding theorem: the message type `Send`, with a capital letter. -/
theorem BuildWasmExecMsg_error_iff_witness :
    "Send" ≠ msgSend ∧ "Send" ≠ msgRecv ∧
    BuildWasmExecMsg "Send" "channel-7" "uosmo" 50000 "1000"
      = ("", some (.registered .ErrBadMessage)) :=
  ⟨by decide, by decide,
    (BuildWasmExecMsg_error_iff "Send" "channel-7" "uosmo" 50000 "1000").2.1 (by decide)
      (by decide)⟩

/-- C15: when the packet data decodes as transfer packet data, `GetFundsFromPacket` returns
the amount of the data as it is, the local denomination of its denomination, and no error;
when the data does not decode, it returns two empty strings and the error of the decoder. -/
theorem GetFundsFromPacket_result (chain : Chain)
    (Unmarshal : String → Except GoError FungibleTokenPacketData) (packet : PacketI) :
    (∀ packetData, Unmarshal packet.GetData = .ok packetData →
      GetFundsFromPacket chain Unmarshal packet
        = (packetData.Amount, GetLocalDenom chain packetData.Denom, none)) ∧
    (∀ err, Unmarshal packet.GetData = .error err →
      GetFundsFromPacket chain Unmarshal packet = ("", "", some err)) := by
  constructor
  · intro packetData h
    simp only [GetFundsFromPacket, h]
  · intro err h
    simp only [GetFundsFromPacket, h]

/-- Instance of the preceding theorem: a packet that carries 1000 of the trace
`transfer/channel-0/uatom`, and a packet whose data is not JSON. -/
theorem GetFundsFromPacket_result_witness :
    sampleUnmarshal
        "\x7b\"amount\":\"1000\",\"denom\":\"transfer/channel-0/uatom\",\"receiver\":\"osmo1r\",\"sender\":\"cosmos1s\"\x7d"
      = .ok { Denom := "transfer/channel-0/uatom", Amount := "1000", Sender := "cosmos1s",
              Receiver := "osmo1r" } ∧
    GetFundsFromPacket sampleChain sampleUnmarshal
        ⟨"\x7b\"amount\":\"1000\",\"denom\":\"transfer/channel-0/uatom\",\"receiver\":\"osmo1r\",\"sender\":\"cosmos1s\"\x7d"⟩
      = ("1000", GetLocalDenom sampleChain "transfer/channel-0/uatom", none) ∧
    sampleUnmarshal "not json" = .error (.lib "cannot unmarshal packet data") ∧
    GetFundsFromPacket sampleChain sampleUnmarshal ⟨"not json"⟩
      = ("", "", some (.lib "cannot unmarshal packet data")) :=
  ⟨by decide,
    (GetFundsFromPacket_result sampleChain sampleUnmarshal
      ⟨"\x7b\"amount\":\"1000\",\"denom\":\"transfer/channel-0/uatom\",\"receiver\":\"osmo1r\",\"sender\":\"cosmos1s\"\x7d"⟩).1
      { Denom := "transfer/channel-0/uatom", Amount := "1000", Sender := "cosmos1s",
        Receiver := "osmo1r" } (by decide),
    by decide,
    (GetFundsFromPacket_result sampleChain sampleUnmarshal ⟨"not json"⟩).2 _ (by decide)⟩

/-- Counterexample to C16 as stated: the resolved denomination of `transfer/uatom` is
`transfer/uatom`, which begins with `transfer/`. -/
theorem GetLocalDenom_resolved_begins_with_transfer :
    GetLocalDenom sampleChain "transfer/uatom" = "transfer/uatom" ∧
    HasPrefix (GetLocalDenom sampleChain "transfer/uatom") "transfer/" = true := by
  decide

/-- C16, amended: `GetLocalDenom` is idempotent: resolving a resolved denomination changes
nothing, because a resolved denomination is either the input returned unchanged or begins with
`ibc/`. -/
theorem GetLocalDenom_idempotent (chain : Chain) (d : String) :
    GetLocalDenom chain (GetLocalDenom chain d) = GetLocalDenom chain d ∧
    (GetLocalDenom chain d = d ∨ HasPrefix (GetLocalDenom chain d) "ibc/" = true) := by
  cases h : HasPrefix d "transfer/" with
  | false =>
    have hd : GetLocalDenom chain d = d := by simp [GetLocalDenom, h]
    exact ⟨by rw [hd, hd], Or.inl hd⟩
  | true =>
    rcases GetLocalDenom_transfer_cases chain d h with ⟨_, hval⟩ | ⟨_, hval⟩
    · have hno := (hasPrefix_ibc_append (chain.Hash
        ((ParseDenomTrace d).Path ++ "/" ++ (ParseDenomTrace d).BaseDenom))).2
      have hyes := (hasPrefix_ibc_append (chain.Hash
        ((ParseDenomTrace d).Path ++ "/" ++ (ParseDenomTrace d).BaseDenom))).1
      rw [← hval] at hno hyes
      refine ⟨?_, Or.inr hyes⟩
      generalize GetLocalDenom chain d = r at hno
      simp [GetLocalDenom, hno]
    · exact ⟨by rw [hval, hval], Or.inl hval⟩

/-- Counterexample to C17 as stated: for the wire denomination `transfer/uatom`, the channel
value of its local denomination is the escrow balance 50000, read with a balance lookup, not
the supply 700. -/
theorem CalculateChannelValue_of_unresolved_trace :
    HasPrefix "transfer/uatom" "transfer/" = true ∧
    (CalculateChannelValue sampleChain freshContext (GetLocalDenom sampleChain "transfer/uatom")
        "transfer" "channel-7" sampleBank).1 = 50000 ∧
    (sampleBank.supplyWithOffset freshContext.store
        (GetLocalDenom sampleChain "transfer/uatom")).Amount = 700 ∧
    (CalculateChannelValue sampleChain freshContext (GetLocalDenom sampleChain "transfer/uatom")
        "transfer" "channel-7" sampleBank).2.calls
      = [KeeperCall.GetBalance (sampleChain.GetEscrowAddress "transfer" "channel-7")
          "transfer/uatom"] := by
  decide

/-- C17, amended: for a wire denomination `d` that begins with `transfer/` and continues with
a channel identifier and a further slash, the channel value of its local denomination is the
amount of the supply-with-offset lookup for the local denomination, whatever the port and the
channel are, and the supply lookup is the only keeper call made. For any other `d` that
begins with `transfer/`, the local denomination is `d` itself and the channel value is the
escrow balance, read with one balance lookup. -/
theorem CalculateChannelValue_of_resolved_trace {σ : Type} (chain : Chain) (ctx : Context σ)
    (d port channel : String) (bankKeeper : BankKeeper σ)
    (h : HasPrefix d "transfer/" = true) :
    ((∃ channelID rest, d.data = "transfer/".data ++ channelID ++ '/' :: rest ∧
        IsValidChannelID channelID = true) →
      CalculateChannelValue chain ctx (GetLocalDenom chain d) port channel bankKeeper
        = ((bankKeeper.supplyWithOffset ctx.store (GetLocalDenom chain d)).Amount,
            { ctx with calls := ctx.calls ++
                [KeeperCall.GetSupplyWithOffset (GetLocalDenom chain d)] })) ∧
    ((¬ ∃ channelID rest, d.data = "transfer/".data ++ channelID ++ '/' :: rest ∧
        IsValidChannelID channelID = true) →
      GetLocalDenom chain d = d ∧
      CalculateChannelValue chain ctx (GetLocalDenom chain d) port channel bankKeeper
        = singleChannelEscrowValue chain ctx d port channel bankKeeper) := by
  constructor
  · intro hex
    have hibc : HasPrefix (GetLocalDenom chain d) "ibc/" = true := by
      rcases GetLocalDenom_transfer_cases chain d h with ⟨_, hval⟩ | ⟨he, _⟩
      · rw [hval]; exact (hasPrefix_ibc_append _).1
      · rcases ParseDenomTrace_transfer_cases d h with ⟨hne, _⟩ | ⟨_, _, hnex⟩
        · exact absurd he hne
        · exact absurd hex hnex
    simp only [CalculateChannelValue, hibc, if_true, BankKeeper.GetSupplyWithOffset]
  · intro hnex
    have hval : GetLocalDenom chain d = d := by
      rcases GetLocalDenom_transfer_cases chain d h with ⟨hne, _⟩ | ⟨_, hval⟩
      · rcases ParseDenomTrace_transfer_cases d h with ⟨_, hex, _⟩ | ⟨he, _, _⟩
        · exact absurd hex hnex
        · exact absurd he hne
      · exact hval
    refine ⟨hval, ?_⟩
    rw [hval]
    have hnative := hasPrefix_ibc_of_transfer d h
    by_cases hany : channel = "any"
    · simp [CalculateChannelValue, singleChannelEscrowValue, hnative, hany,
        BankKeeper.GetBalance]
    · simp [CalculateChannelValue, singleChannelEscrowValue, hnative, hany,
        BankKeeper.GetBalance]

/-- Instance of the preceding theorem: the trace `transfer/channel-0/uatom` on the channel
`channel-7`. -/
theorem CalculateChannelValue_of_resolved_trace_witness :
    HasPrefix "transfer/channel-0/uatom" "transfer/" = true ∧
    ("transfer/channel-0/uatom".data
        = "transfer/".data ++ "channel-0".data ++ '/' :: "uatom".data ∧
      IsValidChannelID "channel-0".data = true) ∧
    CalculateChannelValue sampleChain freshContext
        (GetLocalDenom sampleChain "transfer/channel-0/uatom") "transfer" "channel-7" sampleBank
      = (700, { store := 0, calls := [KeeperCall.GetSupplyWithOffset
          (GetLocalDenom sampleChain "transfer/channel-0/uatom")] }) :=
  ⟨by decide, by decide,
    (CalculateChannelValue_of_resolved_trace sampleChain freshContext
      "transfer/channel-0/uatom" "transfer" "channel-7" sampleBank (by decide)).1
      ⟨"channel-0".data, "uatom".data, by decide, by decide⟩⟩

theorem wrap_error_ne_self (err : GoError) (kind : ErrKind) :
    err ≠ Wrap (.registered kind) err.Error := by
  intro heq
  have hlen := congrArg (fun e => e.Error.length) heq
  simp only [Wrap, GoError.Error, String.length_append] at hlen
  have : (": " : String).length = 2 := by decide
  omega

/-- C18: when the contract string does not parse as an address, `UndoSendRateLimit` returns
the parser's error as it is, not wrapped as `ErrContractError`, and the policy engine is not
invoked: the context, with its call log and store, is returned as it was. -/
theorem UndoSendRateLimit_invalid_address {σ : Type} (chain : Chain) (ctx : Context σ)
    (contractKeeper : PermissionedKeeper σ) (contract sourceChannel denom amount : String)
    (err : GoError) (haddr : chain.AccAddressFromBech32 contract = .error err) :
    UndoSendRateLimit chain ctx contractKeeper contract sourceChannel denom amount
      = (.error err, ctx) ∧
    (UndoSendRateLimit chain ctx contractKeeper contract sourceChannel denom amount).1
      ≠ .error (Wrap (.registered .ErrContractError) err.Error) ∧
    countSudo (UndoSendRateLimit chain ctx contractKeeper contract sourceChannel denom
      amount).2.calls = countSudo ctx.calls := by
  have hres : UndoSendRateLimit chain ctx contractKeeper contract sourceChannel denom amount
      = (.error err, ctx) := by
    simp only [UndoSendRateLimit, haddr]
  refine ⟨hres, ?_, by rw [hres]⟩
  rw [hres]
  intro heq
  exact wrap_error_ne_self err .ErrContractError (Except.error.inj heq)

/-- Instance of the preceding theorem: an undo through a blank contract address. -/
theorem UndoSendRateLimit_invalid_address_witness :
    sampleChain.AccAddressFromBech32 " " = .error (.lib "empty address string is not allowed") ∧
    UndoSendRateLimit sampleChain freshContext acceptingEngine " " "channel-7" "uosmo" "1000"
      = (.error (.lib "empty address string is not allowed"), freshContext) :=
  ⟨by decide,
    (UndoSendRateLimit_invalid_address sampleChain freshContext acceptingEngine " " "channel-7"
      "uosmo" "1000" _ (by decide)).1⟩

end IbcRateLimit
